import Mathlib

/-!
Verification of the garlicsim crunching manager against its specification.

This file gives a shallow embedding of the code in
`src/garlicsim/garlicsim/asynchronous_crunching/crunching_manager.py` and
`src/garlicsim/garlicsim/misc/step_profile.py`, together with spec-modelled
definitions for collaborators that are referenced by the code but whose
sources are not part of the repository snapshot (the `Job` class, the
`ChangeTracker`, the tree interface, `queue_tools.iterate`, and
`ArgumentsProfile`).  Python objects (jobs, crunchers) are compared by
identity, so they are represented by numeric ids with separate stores;
Python dicts keyed by objects become association lists keyed by these ids.
-/

namespace Garlicsim

/-- Association-list lookup, modelling a Python dict read `d[k]`. -/
def dlookup {α : Type} : List (Nat × α) → Nat → Option α
  | [], _ => none
  | p :: rest, k => if p.1 = k then some p.2 else dlookup rest k

/-- Association-list write, modelling a Python dict assignment `d[k] = v`
(replaces the value at an existing key, else appends). -/
def dset {α : Type} : List (Nat × α) → Nat → α → List (Nat × α)
  | [], k, v => [(k, v)]
  | p :: rest, k, v => if p.1 = k then (k, v) :: rest else p :: dset rest k v

/-- Association-list delete, modelling a Python dict `del d[k]`. -/
def derase {α : Type} : List (Nat × α) → Nat → List (Nat × α)
  | [], _ => []
  | p :: rest, k => if p.1 = k then rest else p :: derase rest k

/-- A produced simulation state, as pushed by a cruncher onto its work
queue.  Only the fields the manager depends on are modelled: an opaque
payload and the state's clock reading (`node.clock` in the tree comes from
the state stored at that node). -/
structure State where
  val : Nat
  clock : Nat
deriving Repr, DecidableEq, Inhabited

/-- `StepProfile` from `src/garlicsim/garlicsim/misc/step_profile.py`: a
step-function reference together with positional and keyword arguments.
Functions and argument values are opaque and represented by numbers;
keyword arguments are a string-keyed mapping. -/
structure StepProfile where
  step_function : Nat
  args : List Nat
  kwargs : List (String × Nat)
deriving Repr, DecidableEq, Inhabited

/-- Lookup of one keyword argument in a kwargs mapping. -/
def kwargsLookup (kwargs : List (String × Nat)) (k : String) : Option Nat :=
  (kwargs.find? (fun p => p.1 == k)).map Prod.snd

/-- Extensional equality of two kwargs mappings: every binding of either
side is reflected in the other.  This is equality of the mappings the lists
represent, as a Python `dict.__eq__` compares them. -/
def kwargsEquiv (a b : List (String × Nat)) : Bool :=
  (a.all fun p => kwargsLookup b p.1 == some p.2) &&
  (b.all fun p => kwargsLookup a p.1 == some p.2)

/-- Modelled from the spec: `ArgumentsProfile.__eq__` is not under `src/`
(only `StepProfile.__eq__` is, which delegates to it).  Per spec section 3,
two step profiles are equal iff function and arguments are equal; the
kwargs are compared as mappings. -/
def StepProfile.eq (p q : StepProfile) : Bool :=
  p.step_function == q.step_function && p.args == q.args &&
    kwargsEquiv p.kwargs q.kwargs

/-- `StepProfile.__ne__` from the source: the negation of `__eq__`. -/
def StepProfile.ne (p q : StepProfile) : Bool :=
  !(StepProfile.eq p q)

/-- `StepProfile.__init__` on the explicit `(function, *args, **kwargs)`
path: a placeholder for the state argument is prepended and immediately
stripped again (`self.args = self.args[1:]`), so the stored arguments are
the ones given.  The argument-binding done by the missing
`ArgumentsProfile.__init__` is spec-modelled as storing the arguments as
constructed. -/
def StepProfile.make (step_function : Nat) (args : List Nat)
    (kwargs : List (String × Nat)) : StepProfile :=
  { step_function := step_function, args := args, kwargs := kwargs }

/-- Replace the value bound to key `k` by `v`, keeping every other binding;
used to build a kwargs mapping "differing only in the value of one keyword
argument". -/
def setKwarg (kwargs : List (String × Nat)) (k : String) (v : Nat) :
    List (String × Nat) :=
  kwargs.map (fun p => if p.1 == k then (p.1, v) else p)

/-- `CrunchingProfile` (clock target plus step profile); `clock_target` is
`none` for the `Infinity` target. -/
structure CrunchingProfile where
  clock_target : Option Nat
  step_profile : StepProfile
deriving Repr, DecidableEq, Inhabited

/-- Modelled from the spec: the `Job` class is not under `src/`.  Per spec
section 3 a job pairs a tree node with a crunching profile and a
`resulted_in_end` flag.  These three fields are exactly the ones the
manager source reads and writes (`job.node`, `job.crunching_profile`,
`job.resulted_in_end`). -/
structure Job where
  node : Nat
  crunching_profile : CrunchingProfile
  resulted_in_end : Bool
deriving Repr, DecidableEq, Inhabited

/-- A tree node, per the external interface of spec section 6: state
payload, clock, the `still_in_editing` flag and the step-profile tag the
manager supplied when adding it. -/
structure Node where
  parent : Option Nat
  state : Nat
  clock : Nat
  still_in_editing : Bool
  step_profile : Option StepProfile
deriving Repr, DecidableEq, Inhabited

/-- Modelled from the spec: the tree is an external collaborator (spec
sections 2 and 6).  Nodes are stored in creation order (a node's id is its
index); `make_end` records the (node, step profile) pairs marked as
terminal ends. -/
structure Tree where
  nodes : List Node
  ends : List (Nat × StepProfile)
deriving Repr, DecidableEq, Inhabited

/-- The node built for a produced state: a child of `parent`, carrying the
state's payload and clock, not in editing, tagged with the step profile. -/
def stateNode (parent : Nat) (s : State) (sp : StepProfile) : Node :=
  { parent := some parent, state := s.val, clock := s.clock,
    still_in_editing := false, step_profile := some sp }

/-- Modelled from the spec: `tree.add_state(state, parent, step_profile)`
appends a new node holding the state and returns it. -/
def Tree.add_state (t : Tree) (s : State) (parent : Nat) (sp : StepProfile) :
    Tree × Nat :=
  ({ nodes := t.nodes ++ [stateNode parent s sp], ends := t.ends },
   t.nodes.length)

/-- Modelled from the spec: `tree.make_end(node, step_profile)` marks the
node as a terminal end-of-branch, tagged with the step profile. -/
def Tree.make_end (t : Tree) (node : Nat) (sp : StepProfile) : Tree :=
  { t with ends := t.ends ++ [(node, sp)] }

/-- The node stored at a given id (out-of-range ids never occur on
reachable states). -/
def nodeAt (t : Tree) (n : Nat) : Node :=
  t.nodes.getD n default

/-- An item on a cruncher's work queue: a produced state, the end marker,
a step-profile update, or anything else (which the manager rejects). -/
inductive QueueItem where
  | state (s : State)
  | endMarker
  | stepProfile (p : StepProfile)
  | other (tag : Nat)
deriving Repr, DecidableEq

/-- A cruncher as the manager sees it (spec section 2): its concrete type,
liveness, work queue, and the crunching profile it was last given.  `retire`
is modelled as clearing `alive`. -/
structure Cruncher where
  ctype : Nat
  alive : Bool
  work_queue : List QueueItem
  crunching_profile : CrunchingProfile
deriving Repr, DecidableEq, Inhabited

/-- Observable manager actions, recorded so that "exactly one retire and
one create" style properties can be stated: each entry corresponds to one
call of `cruncher.retire()`, one cruncher construction + `start()`, or one
`cruncher.update_crunching_profile(...)`. -/
inductive Event where
  | retired (cruncher : Nat)
  | created (cruncher : Nat) (job : Nat)
  | updatedProfile (cruncher : Nat)
deriving Repr, DecidableEq

/-- Errors surfaced by the manager.  `unexpectedQueueItem` is the fatal
protocol violation raised at the `raise Exception('Unexpected object %s in
work queue')` line of `__add_work_to_tree`; `keyError` is a Python
`KeyError` from a dict lookup; `configurationError` is the
`GarlicSimException` raised by `__init__` when no cruncher type is
available. -/
inductive CMError where
  | unexpectedQueueItem (item : QueueItem)
  | keyError (key : Nat)
  | configurationError
deriving Repr, DecidableEq

/-- Modelled from the spec: `ChangeTracker.check_in` is not under `src/`.
Per spec section 2 it reports whether the tracked object has mutated since
the last check-in and resets the tracked version.  The tracker is keyed by
the identity of the crunching-profile object, identified here with the id
of the job owning it; the "version" is a snapshot of the profile's value. -/
def checkIn (tracker : List (Nat × CrunchingProfile)) (key : Nat)
    (p : CrunchingProfile) : Bool × List (Nat × CrunchingProfile) :=
  match dlookup tracker key with
  | some old => if old = p then (false, tracker) else (true, dset tracker key p)
  | none => (true, dset tracker key p)

/-- The `CrunchingManager` state: the tree, the job list (ids), the stores
resolving job and cruncher ids to their current objects, the `crunchers`
and `step_profiles` dicts, the change tracker, the selected cruncher type,
a counter providing fresh cruncher ids, and the event log. -/
structure CrunchingManager where
  tree : Tree
  jobs : List Nat
  jobStore : Nat → Job
  cruncherStore : Nat → Cruncher
  crunchers : List (Nat × Nat)
  step_profiles : List (Nat × StepProfile)
  crunching_profiles_change_tracker : List (Nat × CrunchingProfile)
  cruncher_type : Nat
  next_cruncher : Nat
  events : List Event

/-- Overwrite the job object a job id resolves to (a mutation of that job
object in Python). -/
def CrunchingManager.setJob (m : CrunchingManager) (jid : Nat) (j : Job) :
    CrunchingManager :=
  { m with jobStore := fun k => if k = jid then j else m.jobStore k }

/-- Overwrite the cruncher object a cruncher id resolves to. -/
def CrunchingManager.setCruncher (m : CrunchingManager) (cid : Nat)
    (c : Cruncher) : CrunchingManager :=
  { m with cruncherStore := fun k => if k = cid then c else m.cruncherStore k }

/-- `cruncher.retire()`: signal the cruncher to stop (modelled as clearing
`alive`) and record the event. -/
def CrunchingManager.retireCruncher (m : CrunchingManager) (cid : Nat) :
    CrunchingManager :=
  { m with
    cruncherStore := fun k =>
      if k = cid then { m.cruncherStore cid with alive := false }
      else m.cruncherStore k,
    events := m.events ++ [Event.retired cid] }

/-- `cruncher.update_crunching_profile(profile)`: push an updated profile
to a live cruncher and record the event. -/
def CrunchingManager.update_crunching_profile (m : CrunchingManager)
    (cid : Nat) (p : CrunchingProfile) : CrunchingManager :=
  { m with
    cruncherStore := fun k =>
      if k = cid then { m.cruncherStore cid with crunching_profile := p }
      else m.cruncherStore k,
    events := m.events ++ [Event.updatedProfile cid] }

/-- Whether a clock reading has reached or passed a clock target (an
`Infinity` target, `none`, is never reached). -/
def clockReached (clock : Nat) : Option Nat → Bool
  | none => false
  | some t => decide (t ≤ clock)

/-- Modelled from the spec: `Job.is_done` is not under `src/`.  Per spec
section 3 it is true iff `resulted_in_end` is set or the job's node's clock
has reached or passed `clock_target`. -/
def CrunchingManager.job_is_done (m : CrunchingManager) (jid : Nat) : Bool :=
  let job := m.jobStore jid
  job.resulted_in_end ||
    clockReached (nodeAt m.tree job.node).clock job.crunching_profile.clock_target

/-- `CrunchingManager.__conditional_create_cruncher`: create a cruncher for
the job's node unless the node is still in editing.  On creation the code
instantiates and starts a cruncher of `cruncher_type`, records it in
`crunchers`, checks the crunching profile into the change tracker, and
records the profile's step profile in `step_profiles`. -/
def CrunchingManager.conditional_create_cruncher (m : CrunchingManager)
    (jid : Nat) : CrunchingManager :=
  let job := m.jobStore jid
  let node := nodeAt m.tree job.node
  if node.still_in_editing = false then
    let cid := m.next_cruncher
    let cruncher : Cruncher :=
      { ctype := m.cruncher_type, alive := true, work_queue := [],
        crunching_profile := job.crunching_profile }
    { m with
      cruncherStore := fun k => if k = cid then cruncher else m.cruncherStore k,
      crunchers := dset m.crunchers jid cid,
      crunching_profiles_change_tracker :=
        (checkIn m.crunching_profiles_change_tracker jid job.crunching_profile).2,
      step_profiles := dset m.step_profiles cid job.crunching_profile.step_profile,
      next_cruncher := cid + 1,
      events := m.events ++ [Event.created cid jid] }
  else m

/-- The loop body of `__add_work_to_tree`, iterating over the items drained
from the cruncher's work queue (the queue itself has already been emptied,
matching the consuming `queue_tools.iterate`).  A `State` is appended to
the tree as a child of `current` tagged with `step_profiles[cruncher]` and
`current` advances; an `EndMarker` marks `current` as a tree end and sets
the job's `resulted_in_end`; a `StepProfile` replaces
`step_profiles[cruncher]`; anything else raises. -/
def add_work_loop : CrunchingManager → Nat → Nat → Nat → Nat →
    List QueueItem → Except CMError (CrunchingManager × Nat × Nat)
  | m, _, _, current, counter, [] => Except.ok (m, current, counter)
  | m, cid, jid, current, counter, QueueItem.state s :: rest =>
    match dlookup m.step_profiles cid with
    | none => Except.error (CMError.keyError cid)
    | some sp =>
      let r := m.tree.add_state s current sp
      add_work_loop { m with tree := r.1 } cid jid r.2 (counter + 1) rest
  | m, cid, jid, current, counter, QueueItem.endMarker :: rest =>
    match dlookup m.step_profiles cid with
    | none => Except.error (CMError.keyError cid)
    | some sp =>
      let m' := { m with tree := m.tree.make_end current sp }
      add_work_loop
        (m'.setJob jid { m'.jobStore jid with resulted_in_end := true })
        cid jid current counter rest
  | m, cid, jid, current, counter, QueueItem.stepProfile p :: rest =>
    add_work_loop { m with step_profiles := dset m.step_profiles cid p }
      cid jid current counter rest
  | _, _, _, _, _, QueueItem.other t :: _ =>
    Except.error (CMError.unexpectedQueueItem (QueueItem.other t))

/-- A cruncher with its work queue emptied, as `queue_tools.iterate`
consumes every available item. -/
def Cruncher.clearQueue (c : Cruncher) : Cruncher :=
  { c with work_queue := [] }

/-- `CrunchingManager.__add_work_to_tree(cruncher, job, retire)`: drain the
cruncher's work queue into the tree at the job's node.  The bare
`self.step_profiles[cruncher]` statement before the loop is a dict lookup
that raises `KeyError` when the cruncher is unknown.  After the loop the
cruncher is retired if retirement was requested or the job's
`resulted_in_end` flag is set.  Returns `(number of nodes added, the last
node added)`. -/
def add_work_to_tree (m : CrunchingManager) (cid jid : Nat) (ret : Bool) :
    Except CMError (CrunchingManager × Nat × Nat) :=
  match dlookup m.step_profiles cid with
  | none => Except.error (CMError.keyError cid)
  | some _ =>
    let node := (m.jobStore jid).node
    let queue := (m.cruncherStore cid).work_queue
    let m₁ := m.setCruncher cid (m.cruncherStore cid).clearQueue
    match add_work_loop m₁ cid jid node 0 queue with
    | Except.error e => Except.error e
    | Except.ok (m₂, current, counter) =>
      let m₃ :=
        if ret || (m₂.jobStore jid).resulted_in_end then m₂.retireCruncher cid
        else m₂
      Except.ok (m₃, counter, current)

/-- The first loop of `sync_crunchers`: over a snapshot of the
`crunchers` dict, every pair whose job is no longer in the live job list is
drained with forced retirement and removed from `crunchers`. -/
def sync_phase_one : CrunchingManager → Nat → List (Nat × Nat) →
    Except CMError (CrunchingManager × Nat)
  | m, total, [] => Except.ok (m, total)
  | m, total, (jid, cid) :: rest =>
    if jid ∈ m.jobs then sync_phase_one m total rest
    else
      match add_work_to_tree m cid jid true with
      | Except.error e => Except.error e
      | Except.ok (m', added, _) =>
        sync_phase_one { m' with crunchers := derase m'.crunchers jid }
          (total + added) rest

/-- The second loop of `sync_crunchers`, over a snapshot of the job list:
jobs without a cruncher are removed if done, else a cruncher is
conditionally created; jobs with a cruncher are drained (without forced
retirement), their node advanced to the new leaf, and then the cruncher is
kept, replaced (step-profile change, death, or wrong type), updated
(crunching-profile change), or retired with the finished job. -/
def sync_phase_two : CrunchingManager → Nat → List Nat →
    Except CMError (CrunchingManager × Nat)
  | m, total, [] => Except.ok (m, total)
  | m, total, jid :: rest =>
    match dlookup m.crunchers jid with
    | none =>
      if m.job_is_done jid then
        sync_phase_two { m with jobs := m.jobs.erase jid } total rest
      else
        sync_phase_two (m.conditional_create_cruncher jid) total rest
    | some cid =>
      match add_work_to_tree m cid jid false with
      | Except.error e => Except.error e
      | Except.ok (m₁, added, new_leaf) =>
        let m₂ := m₁.setJob jid { m₁.jobStore jid with node := new_leaf }
        if m₂.job_is_done jid = false then
          if (m₂.cruncherStore cid).alive = true ∧
              (m₂.cruncherStore cid).ctype = m₂.cruncher_type then
            match dlookup m₂.step_profiles cid with
            | none => Except.error (CMError.keyError cid)
            | some sp =>
              if StepProfile.eq
                  (m₂.jobStore jid).crunching_profile.step_profile sp = false then
                let m₃ :=
                  if (m₂.cruncherStore cid).alive then m₂.retireCruncher cid
                  else m₂
                sync_phase_two (m₃.conditional_create_cruncher jid)
                  (total + added) rest
              else
                let c := checkIn m₂.crunching_profiles_change_tracker jid
                  (m₂.jobStore jid).crunching_profile
                let m₃ :=
                  { m₂ with crunching_profiles_change_tracker := c.2 }
                if c.1 then
                  sync_phase_two
                    (m₃.update_crunching_profile cid
                      (m₃.jobStore jid).crunching_profile)
                    (total + added) rest
                else
                  sync_phase_two m₃ (total + added) rest
          else
            let m₃ := m₂.retireCruncher cid
            sync_phase_two (m₃.conditional_create_cruncher jid)
              (total + added) rest
        else
          let m₃ := { m₂ with jobs := m₂.jobs.erase jid }
          let m₄ :=
            if (m₃.cruncherStore cid).alive then m₃.retireCruncher cid else m₃
          sync_phase_two { m₄ with crunchers := derase m₄.crunchers jid }
            (total + added) rest

/-- `CrunchingManager.sync_crunchers`: reap crunchers of cancelled jobs,
then reconcile every live job, returning the total number of nodes added
to the tree.  (The tree write lock held for the call's duration is a
concurrency aspect outside the sequential embedding.) -/
def sync_crunchers (m : CrunchingManager) :
    Except CMError (CrunchingManager × Nat) :=
  match sync_phase_one m 0 m.crunchers with
  | Except.error e => Except.error e
  | Except.ok (m', total) => sync_phase_two m' total m'.jobs

/-- `CrunchingManager.get_jobs_by_node`: every live job whose node is the
given node. -/
def CrunchingManager.get_jobs_by_node (m : CrunchingManager) (node : Nat) :
    List Nat :=
  m.jobs.filter (fun jid => (m.jobStore jid).node = node)

/-- The simulation-package descriptor, as consumed by the constructor. -/
structure SimpackGrokker where
  available_cruncher_types : List Nat
deriving Repr, DecidableEq

/-- The project handle, as consumed by the constructor. -/
structure Project where
  simpack_grokker : SimpackGrokker
  tree : Tree
deriving Repr, DecidableEq

/-- `CrunchingManager.__init__`: empty job list and maps, and
`cruncher_type` set to the first available cruncher type; indexing an empty
list raises `IndexError`, turned into the configuration
`GarlicSimException`. -/
def CrunchingManager.init (project : Project) :
    Except CMError CrunchingManager :=
  match project.simpack_grokker.available_cruncher_types with
  | [] => Except.error CMError.configurationError
  | t :: _ =>
    Except.ok
      { tree := project.tree, jobs := [], jobStore := fun _ => default,
        cruncherStore := fun _ => default, crunchers := [],
        step_profiles := [], crunching_profiles_change_tracker := [],
        cruncher_type := t, next_cruncher := 0, events := [] }

/-- The cruncher type selected by a construction attempt, `none` when
construction failed. -/
def initCruncherType (r : Except CMError CrunchingManager) : Option Nat :=
  match r with
  | Except.ok m => some m.cruncher_type
  | Except.error _ => none

/-- The jobs of a manager that are done, per `job_is_done`; the spec's
invariant says this list is empty after a completed sync. -/
def doneJobsIn (m : CrunchingManager) : List Nat :=
  m.jobs.filter m.job_is_done

/-! ### Queue-effect functions

The following functions describe, directly from the drain loop's cases, the
effect a queue's items have: the number of states, whether an end marker
occurs, the step profile in effect after the drain, the nodes appended
(each a child of the running `current` pointer, tagged with the step
profile in effect when it was produced, in queue order), the ends recorded,
and the final `current` pointer.  `nextId` is the id the next appended node
will get (the tree length). -/

/-- Number of `State` items in a queue. -/
def countStates : List QueueItem → Nat
  | [] => 0
  | QueueItem.state _ :: rest => countStates rest + 1
  | _ :: rest => countStates rest

/-- Whether the queue holds an end marker. -/
def hasEnd : List QueueItem → Bool
  | [] => false
  | QueueItem.endMarker :: _ => true
  | _ :: rest => hasEnd rest

/-- Whether the queue holds only items of the closed contract (states, end
markers, step-profile updates). -/
def legalQueue : List QueueItem → Bool
  | [] => true
  | QueueItem.other _ :: _ => false
  | _ :: rest => legalQueue rest

/-- The step profile in effect after draining the queue, starting from
`sp`. -/
def finalProfile : StepProfile → List QueueItem → StepProfile
  | sp, [] => sp
  | _, QueueItem.stepProfile p :: rest => finalProfile p rest
  | sp, _ :: rest => finalProfile sp rest

/-- The nodes a drain appends: one per `State` item, each a child of the
running `current` pointer (which advances to the new node's id), tagged
with the step profile in effect at that point. -/
def nodesSpec : StepProfile → Nat → Nat → List QueueItem → List Node
  | _, _, _, [] => []
  | sp, current, nextId, QueueItem.state s :: rest =>
    stateNode current s sp :: nodesSpec sp nextId (nextId + 1) rest
  | sp, current, nextId, QueueItem.endMarker :: rest =>
    nodesSpec sp current nextId rest
  | _, current, nextId, QueueItem.stepProfile p :: rest =>
    nodesSpec p current nextId rest
  | _, _, _, QueueItem.other _ :: _ => []

/-- The tree ends a drain records: one per end marker, at the running
`current` pointer, tagged with the step profile in effect at that point. -/
def endsSpec : StepProfile → Nat → Nat → List QueueItem →
    List (Nat × StepProfile)
  | _, _, _, [] => []
  | sp, _, nextId, QueueItem.state _ :: rest =>
    endsSpec sp nextId (nextId + 1) rest
  | sp, current, nextId, QueueItem.endMarker :: rest =>
    (current, sp) :: endsSpec sp current nextId rest
  | _, current, nextId, QueueItem.stepProfile p :: rest =>
    endsSpec p current nextId rest
  | _, _, _, QueueItem.other _ :: _ => []

/-- The final `current` pointer of a drain (the last node added, or the
starting node when no state was drained). -/
def currentSpec : Nat → Nat → List QueueItem → Nat
  | current, _, [] => current
  | _, nextId, QueueItem.state _ :: rest => currentSpec nextId (nextId + 1) rest
  | current, nextId, QueueItem.endMarker :: rest => currentSpec current nextId rest
  | current, nextId, QueueItem.stepProfile _ :: rest =>
    currentSpec current nextId rest
  | current, _, QueueItem.other _ :: _ => current

/-- A queue consisting only of produced states. -/
def statesToItems (l : List State) : List QueueItem :=
  l.map QueueItem.state

/-! ### Association-list lemmas -/

theorem dlookup_dset_self {α : Type} (l : List (Nat × α)) (k : Nat) (v : α) :
    dlookup (dset l k v) k = some v := by
  induction l with
  | nil => simp [dset, dlookup]
  | cons p rest ih =>
    by_cases h : p.1 = k
    · simp [dset, h, dlookup]
    · simp [dset, h, dlookup, ih]

theorem dlookup_dset_ne {α : Type} (l : List (Nat × α)) (k k' : Nat) (v : α)
    (h : k' ≠ k) : dlookup (dset l k v) k' = dlookup l k' := by
  induction l with
  | nil => simp [dset, dlookup, Ne.symm h]
  | cons p rest ih =>
    by_cases hp : p.1 = k
    · simp [dset, hp, dlookup, Ne.symm h]
    · simp [dset, hp, dlookup, ih]

theorem dlookup_dset (l : List (Nat × α)) (k k' : Nat) (v : α) :
    dlookup (dset l k v) k' =
      if k' = k then some v else dlookup l k' := by
  by_cases h : k' = k
  · subst h; simp [dlookup_dset_self]
  · simp [h, dlookup_dset_ne l k k' v h]

theorem isSome_dlookup_dset {α : Type} (l : List (Nat × α)) (k k' : Nat)
    (v : α) (h : (dlookup l k').isSome) :
    (dlookup (dset l k v) k').isSome := by
  rw [dlookup_dset]
  by_cases hk : k' = k <;> simp [hk, h]

theorem mem_derase {α : Type} (l : List (Nat × α)) (k : Nat)
    (p : Nat × α) (h : p ∈ derase l k) : p ∈ l := by
  induction l with
  | nil => simp [derase] at h
  | cons q rest ih =>
    by_cases hq : q.1 = k
    · simp only [derase, if_pos hq] at h
      exact List.mem_cons_of_mem _ h
    · simp only [derase, if_neg hq, List.mem_cons] at h
      rcases h with h | h
      · exact h ▸ List.mem_cons_self _ _
      · exact List.mem_cons_of_mem _ (ih h)

/-! ### Characterization of the drain loop -/

/-- The manager components the drain loop never touches. -/
def UnchangedCore (m m' : CrunchingManager) : Prop :=
  m'.cruncherStore = m.cruncherStore ∧ m'.jobs = m.jobs ∧
  m'.crunchers = m.crunchers ∧
  m'.crunching_profiles_change_tracker = m.crunching_profiles_change_tracker ∧
  m'.cruncher_type = m.cruncher_type ∧ m'.next_cruncher = m.next_cruncher ∧
  m'.events = m.events

theorem unchangedCore_refl (m : CrunchingManager) : UnchangedCore m m :=
  ⟨rfl, rfl, rfl, rfl, rfl, rfl, rfl⟩

/-- On a legal queue (no item outside the closed contract) whose cruncher
has a recorded step profile, the drain loop succeeds and its effect is
exactly described by the queue-effect functions. -/
theorem add_work_loop_spec (q : List QueueItem) :
    ∀ (m : CrunchingManager) (cid jid current counter : Nat)
      (sp : StepProfile),
    dlookup m.step_profiles cid = some sp →
    legalQueue q = true →
    ∃ m', add_work_loop m cid jid current counter q =
        Except.ok (m', currentSpec current m.tree.nodes.length q,
          counter + countStates q) ∧
      m'.tree.nodes =
        m.tree.nodes ++ nodesSpec sp current m.tree.nodes.length q ∧
      m'.tree.ends =
        m.tree.ends ++ endsSpec sp current m.tree.nodes.length q ∧
      (∀ k, dlookup m'.step_profiles k =
        if k = cid then some (finalProfile sp q)
        else dlookup m.step_profiles k) ∧
      m'.jobStore jid = { m.jobStore jid with
        resulted_in_end := (m.jobStore jid).resulted_in_end || hasEnd q } ∧
      (∀ j, j ≠ jid → m'.jobStore j = m.jobStore j) ∧
      UnchangedCore m m' := by
  induction q with
  | nil =>
    intro m cid jid current counter sp hsp _
    refine ⟨m, ?_, ?_, ?_, ?_, ?_, fun _ _ => rfl, unchangedCore_refl m⟩
    · simp [add_work_loop, currentSpec, countStates]
    · simp [nodesSpec]
    · simp [endsSpec]
    · intro k
      by_cases hk : k = cid <;> simp [hk, finalProfile, hsp]
    · simp [hasEnd]
  | cons item rest ih =>
    intro m cid jid current counter sp hsp hlegal
    cases item with
    | state s =>
      have hlegal' : legalQueue rest = true := hlegal
      obtain ⟨m', hres, hnodes, hends, hsps, hjob, hjobs, hunch⟩ :=
        ih { m with tree := (m.tree.add_state s current sp).1 } cid jid
          (m.tree.add_state s current sp).2 (counter + 1) sp hsp hlegal'
      refine ⟨m', ?_, ?_, ?_, hsps, hjob, hjobs, hunch⟩
      · rw [show add_work_loop m cid jid current counter
            (QueueItem.state s :: rest) =
            add_work_loop { m with tree := (m.tree.add_state s current sp).1 }
              cid jid (m.tree.add_state s current sp).2 (counter + 1) rest by
          simp [add_work_loop, hsp]]
        rw [hres]
        have hlen : ({ m with tree := (m.tree.add_state s current sp).1 } :
            CrunchingManager).tree.nodes.length = m.tree.nodes.length + 1 := by
          simp [Tree.add_state]
        have hcur : (m.tree.add_state s current sp).2 = m.tree.nodes.length :=
          rfl
        rw [hlen, hcur]
        have hcount : counter + countStates (QueueItem.state s :: rest) =
            counter + 1 + countStates rest := by
          simp [countStates]; omega
        rw [hcount]
        rfl
      · rw [hnodes]
        simp [Tree.add_state, nodesSpec, List.append_assoc]
      · rw [hends]
        simp [Tree.add_state, endsSpec]
    | endMarker =>
      have hlegal' : legalQueue rest = true := hlegal
      obtain ⟨m', hres, hnodes, hends, hsps, hjob, hjobs, hunch⟩ :=
        ih (({ m with tree := m.tree.make_end current sp} :
              CrunchingManager).setJob jid
            { ({ m with tree := m.tree.make_end current sp} :
                CrunchingManager).jobStore jid with resulted_in_end := true })
          cid jid current counter sp hsp hlegal'
      refine ⟨m', ?_, ?_, ?_, hsps, ?_, ?_, hunch⟩
      · rw [show add_work_loop m cid jid current counter
            (QueueItem.endMarker :: rest) =
            add_work_loop
              (({ m with tree := m.tree.make_end current sp} :
                  CrunchingManager).setJob jid
                { ({ m with tree := m.tree.make_end current sp} :
                    CrunchingManager).jobStore jid with
                  resulted_in_end := true })
              cid jid current counter rest by
          simp [add_work_loop, hsp]]
        rw [hres]
        rfl
      · rw [hnodes]
        simp [Tree.make_end, CrunchingManager.setJob, nodesSpec]
      · rw [hends]
        simp [Tree.make_end, CrunchingManager.setJob, endsSpec]
      · rw [hjob]
        simp [CrunchingManager.setJob, hasEnd]
      · intro j hj
        rw [hjobs j hj]
        simp [CrunchingManager.setJob, hj]
    | stepProfile p =>
      have hlegal' : legalQueue rest = true := hlegal
      have hsp' : dlookup ({ m with
          step_profiles := dset m.step_profiles cid p } :
          CrunchingManager).step_profiles cid = some p :=
        dlookup_dset_self m.step_profiles cid p
      obtain ⟨m', hres, hnodes, hends, hsps, hjob, hjobs, hunch⟩ :=
        ih { m with step_profiles := dset m.step_profiles cid p } cid jid
          current counter p hsp' hlegal'
      refine ⟨m', ?_, ?_, ?_, ?_, hjob, hjobs, hunch⟩
      · rw [show add_work_loop m cid jid current counter
            (QueueItem.stepProfile p :: rest) =
            add_work_loop { m with step_profiles := dset m.step_profiles cid p }
              cid jid current counter rest from rfl]
        rw [hres]
        rfl
      · rw [hnodes]; rfl
      · rw [hends]; rfl
      · intro k
        rw [hsps k]
        by_cases hk : k = cid
        · simp [hk, finalProfile]
        · simp [hk, dlookup_dset_ne m.step_profiles cid k p hk]
    | other t =>
      simp [legalQueue] at hlegal

/-- Frame facts of the drain loop that hold for every successful run, with
no assumption on the queue's contents: the tree only grows, only the given
job's `resulted_in_end` flag is touched, recorded step profiles are never
dropped, and the final `current` is the starting node or a node of the
resulting tree. -/
theorem add_work_loop_frame (q : List QueueItem) :
    ∀ (m : CrunchingManager) (cid jid current counter : Nat)
      (m' : CrunchingManager) (current' counter' : Nat),
    add_work_loop m cid jid current counter q =
      Except.ok (m', current', counter') →
    (∃ ns, m'.tree.nodes = m.tree.nodes ++ ns) ∧
    (∀ j, j ≠ jid → m'.jobStore j = m.jobStore j) ∧
    (m'.jobStore jid).node = (m.jobStore jid).node ∧
    (m'.jobStore jid).crunching_profile =
      (m.jobStore jid).crunching_profile ∧
    (m'.jobStore jid).resulted_in_end =
      ((m.jobStore jid).resulted_in_end || hasEnd q) ∧
    (∀ k, (dlookup m.step_profiles k).isSome →
      (dlookup m'.step_profiles k).isSome) ∧
    (current' = current ∨ current' < m'.tree.nodes.length) ∧
    UnchangedCore m m' := by
  induction q with
  | nil =>
    intro m cid jid current counter m' current' counter' h
    simp only [add_work_loop, Except.ok.injEq, Prod.mk.injEq] at h
    obtain ⟨rfl, rfl, rfl⟩ := h
    exact ⟨⟨[], by simp⟩, fun _ _ => rfl, rfl, rfl, by simp [hasEnd],
      fun _ hk => hk, Or.inl rfl, unchangedCore_refl m⟩
  | cons item rest ih =>
    intro m cid jid current counter m' current' counter' h
    cases item with
    | state s =>
      cases hsp : dlookup m.step_profiles cid with
      | none => simp [add_work_loop, hsp] at h
      | some sp =>
        rw [show add_work_loop m cid jid current counter
              (QueueItem.state s :: rest) =
              add_work_loop
                { m with tree := (m.tree.add_state s current sp).1 } cid jid
                (m.tree.add_state s current sp).2 (counter + 1) rest by
            simp [add_work_loop, hsp]] at h
        obtain ⟨⟨ns, hns⟩, hjobs, hnode, hcp, hrie, hisSome, hcur, hunch⟩ :=
          ih _ cid jid _ (counter + 1) m' current' counter' h
        have hlen : m'.tree.nodes.length =
            m.tree.nodes.length + 1 + ns.length := by
          rw [hns]; simp [Tree.add_state]; omega
        refine ⟨⟨stateNode current s sp :: ns,
            by rw [hns]; simp [Tree.add_state]⟩, hjobs, hnode,
          hcp, by simpa [hasEnd] using hrie, hisSome, ?_, hunch⟩
        rcases hcur with hcur | hcur
        · exact Or.inr (by rw [hcur]; show m.tree.nodes.length < _; omega)
        · exact Or.inr hcur
    | endMarker =>
      cases hsp : dlookup m.step_profiles cid with
      | none => simp [add_work_loop, hsp] at h
      | some sp =>
        rw [show add_work_loop m cid jid current counter
              (QueueItem.endMarker :: rest) =
              add_work_loop
                (({ m with tree := m.tree.make_end current sp} :
                    CrunchingManager).setJob jid
                  { ({ m with tree := m.tree.make_end current sp} :
                      CrunchingManager).jobStore jid with
                    resulted_in_end := true })
                cid jid current counter rest by
            simp [add_work_loop, hsp]] at h
        obtain ⟨⟨ns, hns⟩, hjobs, hnode, hcp, hrie, hisSome, hcur, hunch⟩ :=
          ih _ cid jid current counter m' current' counter' h
        refine ⟨⟨ns, by rw [hns]; rfl⟩, ?_, ?_, ?_, ?_, hisSome, hcur, hunch⟩
        · intro j hj
          rw [hjobs j hj]
          simp [CrunchingManager.setJob, hj]
        · rw [hnode]; simp [CrunchingManager.setJob]
        · rw [hcp]; simp [CrunchingManager.setJob]
        · rw [hrie]; simp [CrunchingManager.setJob, hasEnd]
    | stepProfile p =>
      rw [show add_work_loop m cid jid current counter
            (QueueItem.stepProfile p :: rest) =
            add_work_loop { m with step_profiles := dset m.step_profiles cid p }
              cid jid current counter rest from rfl] at h
      obtain ⟨hns, hjobs, hnode, hcp, hrie, hisSome, hcur, hunch⟩ :=
        ih _ cid jid current counter m' current' counter' h
      refine ⟨hns, hjobs, hnode, hcp, by simpa [hasEnd] using hrie, ?_, hcur,
        hunch⟩
      intro k hk
      exact hisSome k (isSome_dlookup_dset m.step_profiles cid k p hk)
    | other t =>
      simp [add_work_loop] at h

/-- Reaching an item outside the closed contract makes the drain loop raise
the unexpected-queue-item error, whatever follows it. -/
theorem add_work_loop_error (pre : List QueueItem) :
    ∀ (m : CrunchingManager) (cid jid current counter t : Nat)
      (rest : List QueueItem),
    (dlookup m.step_profiles cid).isSome →
    legalQueue pre = true →
    add_work_loop m cid jid current counter
        (pre ++ QueueItem.other t :: rest) =
      Except.error (CMError.unexpectedQueueItem (QueueItem.other t)) := by
  induction pre with
  | nil =>
    intro m cid jid current counter t rest _ _
    simp [add_work_loop]
  | cons item pre' ih =>
    intro m cid jid current counter t rest hsome hlegal
    cases item with
    | state s =>
      obtain ⟨sp, hsp⟩ := Option.isSome_iff_exists.mp hsome
      simp only [List.cons_append, add_work_loop, hsp]
      exact ih _ cid jid _ _ t rest hsome hlegal
    | endMarker =>
      obtain ⟨sp, hsp⟩ := Option.isSome_iff_exists.mp hsome
      simp only [List.cons_append, add_work_loop, hsp]
      exact ih _ cid jid _ _ t rest hsome hlegal
    | stepProfile p =>
      simp only [List.cons_append, add_work_loop]
      exact ih _ cid jid _ _ t rest
        (by simp [dlookup_dset_self]) hlegal
    | other t2 =>
      simp [legalQueue] at hlegal

/-- `__add_work_to_tree` on a legal queue: the full effect, including the
retirement decided by the `retire` argument or the job\'s `resulted_in_end`
flag, and the `(nodes added, last node)` return value. -/
theorem add_work_to_tree_spec (m : CrunchingManager) (cid jid : Nat)
    (ret : Bool) (sp : StepProfile)
    (hsp : dlookup m.step_profiles cid = some sp)
    (hlegal : legalQueue (m.cruncherStore cid).work_queue = true) :
    ∃ m', add_work_to_tree m cid jid ret =
        Except.ok (m', countStates (m.cruncherStore cid).work_queue,
          currentSpec (m.jobStore jid).node m.tree.nodes.length
            (m.cruncherStore cid).work_queue) ∧
      m'.tree.nodes = m.tree.nodes ++
        nodesSpec sp (m.jobStore jid).node m.tree.nodes.length
          (m.cruncherStore cid).work_queue ∧
      m'.tree.ends = m.tree.ends ++
        endsSpec sp (m.jobStore jid).node m.tree.nodes.length
          (m.cruncherStore cid).work_queue ∧
      (∀ k, dlookup m'.step_profiles k =
        if k = cid then
          some (finalProfile sp (m.cruncherStore cid).work_queue)
        else dlookup m.step_profiles k) ∧
      m'.jobStore jid = { m.jobStore jid with
        resulted_in_end := (m.jobStore jid).resulted_in_end ||
          hasEnd (m.cruncherStore cid).work_queue } ∧
      (∀ j, j ≠ jid → m'.jobStore j = m.jobStore j) ∧
      (m'.cruncherStore cid).alive =
        (if (ret || ((m.jobStore jid).resulted_in_end ||
            hasEnd (m.cruncherStore cid).work_queue)) = true then false
         else (m.cruncherStore cid).alive) ∧
      (m'.cruncherStore cid).ctype = (m.cruncherStore cid).ctype ∧
      (m'.cruncherStore cid).work_queue = [] ∧
      (∀ c, c ≠ cid → m'.cruncherStore c = m.cruncherStore c) ∧
      m'.events = m.events ++
        (if (ret || ((m.jobStore jid).resulted_in_end ||
            hasEnd (m.cruncherStore cid).work_queue)) = true then
          [Event.retired cid]
         else []) ∧
      m'.jobs = m.jobs ∧ m'.crunchers = m.crunchers ∧
      m'.crunching_profiles_change_tracker =
        m.crunching_profiles_change_tracker ∧
      m'.cruncher_type = m.cruncher_type ∧
      m'.next_cruncher = m.next_cruncher := by
  obtain ⟨m₂, hres, hnodes, hends, hsps, hjob, hjobs,
      hcs, hjl, hcrs, htr, hct, hnc, hev⟩ :=
    add_work_loop_spec (m.cruncherStore cid).work_queue
      (m.setCruncher cid (m.cruncherStore cid).clearQueue)
      cid jid (m.jobStore jid).node 0 sp hsp hlegal
  have hcond : (ret || (m₂.jobStore jid).resulted_in_end) =
      (ret || ((m.jobStore jid).resulted_in_end ||
        hasEnd (m.cruncherStore cid).work_queue)) := by
    rw [hjob]
    rfl
  have hunfold : add_work_to_tree m cid jid ret =
      Except.ok
        (if (ret || ((m.jobStore jid).resulted_in_end ||
            hasEnd (m.cruncherStore cid).work_queue)) = true then
          m₂.retireCruncher cid
         else m₂,
         countStates (m.cruncherStore cid).work_queue,
         currentSpec (m.jobStore jid).node m.tree.nodes.length
           (m.cruncherStore cid).work_queue) := by
    simp only [add_work_to_tree, hsp]
    rw [hres]
    simp [CrunchingManager.setCruncher, Cruncher.clearQueue, hcond]
  by_cases hc : (ret || ((m.jobStore jid).resulted_in_end ||
      hasEnd (m.cruncherStore cid).work_queue)) = true
  · refine ⟨m₂.retireCruncher cid, ?_, ?_, ?_, ?_, ?_, ?_,
      ?_, ?_, ?_, ?_, ?_, ?_, ?_, ?_, ?_, ?_⟩
    · rw [hunfold]; simp [hc]
    · exact hnodes
    · exact hends
    · exact hsps
    · exact hjob
    · exact hjobs
    · simp [CrunchingManager.retireCruncher, hc]
    · simp only [CrunchingManager.retireCruncher]
      simp only [hcs]
      simp [CrunchingManager.setCruncher, Cruncher.clearQueue]
    · simp only [CrunchingManager.retireCruncher]
      simp only [hcs]
      simp [CrunchingManager.setCruncher, Cruncher.clearQueue]
    · intro c hcar
      simp only [CrunchingManager.retireCruncher]
      simp only [hcs]
      simp [CrunchingManager.setCruncher, hcar]
    · simp only [CrunchingManager.retireCruncher]
      simp only [hev]
      simp [CrunchingManager.setCruncher, hc]
    · exact hjl
    · exact hcrs
    · exact htr
    · exact hct
    · exact hnc
  · refine ⟨m₂, ?_, ?_, ?_, ?_, ?_, ?_,
      ?_, ?_, ?_, ?_, ?_, ?_, ?_, ?_, ?_, ?_⟩
    · rw [hunfold]; simp [hc]
    · exact hnodes
    · exact hends
    · exact hsps
    · exact hjob
    · exact hjobs
    · simp only [hcs]
      simp [CrunchingManager.setCruncher, Cruncher.clearQueue, hc]
    · simp only [hcs]
      simp [CrunchingManager.setCruncher, Cruncher.clearQueue]
    · simp only [hcs]
      simp [CrunchingManager.setCruncher, Cruncher.clearQueue]
    · intro c hcar
      simp only [hcs]
      simp [CrunchingManager.setCruncher, hcar]
    · simp only [hev]
      simp [CrunchingManager.setCruncher, hc]
    · exact hjl
    · exact hcrs
    · exact htr
    · exact hct
    · exact hnc

/-- Frame facts of `__add_work_to_tree` for every successful run, with no
assumption on the queue: the tree only grows, only the given job is
touched (and only its `resulted_in_end` flag), recorded step profiles are
never dropped, the returned leaf is the job\'s node or a node of the
resulting tree, and only the given cruncher may be retired. -/
theorem add_work_to_tree_frame (m : CrunchingManager) (cid jid : Nat)
    (ret : Bool) (m' : CrunchingManager) (added leaf : Nat)
    (h : add_work_to_tree m cid jid ret = Except.ok (m', added, leaf)) :
    (∃ ns, m'.tree.nodes = m.tree.nodes ++ ns) ∧
    (∀ j, j ≠ jid → m'.jobStore j = m.jobStore j) ∧
    (m'.jobStore jid).node = (m.jobStore jid).node ∧
    (m'.jobStore jid).crunching_profile =
      (m.jobStore jid).crunching_profile ∧
    (m'.jobStore jid).resulted_in_end =
      ((m.jobStore jid).resulted_in_end ||
        hasEnd (m.cruncherStore cid).work_queue) ∧
    (∀ k, (dlookup m.step_profiles k).isSome →
      (dlookup m'.step_profiles k).isSome) ∧
    (leaf = (m.jobStore jid).node ∨ leaf < m'.tree.nodes.length) ∧
    m'.jobs = m.jobs ∧ m'.crunchers = m.crunchers ∧
    m'.crunching_profiles_change_tracker =
      m.crunching_profiles_change_tracker ∧
    m'.cruncher_type = m.cruncher_type ∧
    m'.next_cruncher = m.next_cruncher ∧
    (m'.events = m.events ∨ m'.events = m.events ++ [Event.retired cid]) ∧
    (∀ c, c ≠ cid → m'.cruncherStore c = m.cruncherStore c) ∧
    ((ret || (m'.jobStore jid).resulted_in_end) = true →
      m'.events = m.events ++ [Event.retired cid] ∧
      (m'.cruncherStore cid).alive = false) := by
  cases hsp : dlookup m.step_profiles cid with
  | none => simp [add_work_to_tree, hsp] at h
  | some sp =>
    simp only [add_work_to_tree, hsp] at h
    split at h
    · exact absurd h (by simp)
    · rename_i m₂ cur cnt heq
      simp only [Except.ok.injEq, Prod.mk.injEq] at h
      obtain ⟨hm, hcnt, hcur⟩ := h
      subst hcnt
      subst hcur
      obtain ⟨⟨ns, hns⟩, hjobs, hnode, hcp, hrie, hisSome, hcurd,
          hcs, hjl, hcrs, htr, hct, hnc, hev⟩ :=
        add_work_loop_frame _ _ cid jid _ 0 m₂ cur cnt heq
      by_cases hc : (ret || (m₂.jobStore jid).resulted_in_end) = true
      · rw [if_pos hc] at hm
        subst hm
        have hevr : (m₂.retireCruncher cid).events =
            m.events ++ [Event.retired cid] := by
          show m₂.events ++ [Event.retired cid] = m.events ++ [Event.retired cid]
          rw [hev]
          rfl
        refine ⟨⟨ns, hns⟩, fun j hj => hjobs j hj, hnode, hcp, hrie,
          hisSome, hcurd, hjl, hcrs, htr, hct, hnc, Or.inr hevr, ?_,
          fun _ => ⟨hevr, ?_⟩⟩
        · intro c hcar
          show (if c = cid then _ else m₂.cruncherStore c) = m.cruncherStore c
          rw [if_neg hcar, hcs]
          show (if c = cid then _ else m.cruncherStore c) = m.cruncherStore c
          rw [if_neg hcar]
        · show (if cid = cid then _ else m₂.cruncherStore cid).alive = false
          rw [if_pos rfl]
      · rw [if_neg hc] at hm
        subst hm
        refine ⟨⟨ns, hns⟩, fun j hj => hjobs j hj, hnode, hcp, hrie,
          hisSome, hcurd, hjl, hcrs, htr, hct, hnc, Or.inl hev, ?_,
          fun hcc => absurd hcc hc⟩
        intro c hcar
        rw [hcs]
        show (if c = cid then _ else m.cruncherStore c) = m.cruncherStore c
        rw [if_neg hcar]

/-! ### Facts about queues of states only -/

theorem countStates_states (l : List State) :
    countStates (statesToItems l) = l.length := by
  induction l with
  | nil => rfl
  | cons s l ih => simp [statesToItems, countStates] at ih ⊢; omega

theorem legalQueue_states (l : List State) :
    legalQueue (statesToItems l) = true := by
  induction l with
  | nil => rfl
  | cons s l ih => simpa [statesToItems, legalQueue] using ih

theorem hasEnd_states (l : List State) :
    hasEnd (statesToItems l) = false := by
  induction l with
  | nil => rfl
  | cons s l ih => simpa [statesToItems, hasEnd] using ih

theorem endsSpec_states (l : List State) :
    ∀ (sp : StepProfile) (cur base : Nat),
    endsSpec sp cur base (statesToItems l) = [] := by
  induction l with
  | nil => intro sp cur base; rfl
  | cons s l ih =>
    intro sp cur base
    simpa [statesToItems, endsSpec] using ih sp base (base + 1)

theorem currentSpec_states (l : List State) :
    ∀ (cur base : Nat),
    currentSpec cur base (statesToItems l) =
      if l.isEmpty then cur else base + l.length - 1 := by
  induction l with
  | nil => intro cur base; rfl
  | cons s l ih =>
    intro cur base
    show currentSpec base (base + 1) (statesToItems l) = _
    rw [ih base (base + 1)]
    cases l with
    | nil => simp [List.isEmpty]
    | cons s2 l2 => simp [List.isEmpty]; omega

theorem nodesSpec_states_length (l : List State) :
    ∀ (sp : StepProfile) (cur base : Nat),
    (nodesSpec sp cur base (statesToItems l)).length = l.length := by
  induction l with
  | nil => intro sp cur base; rfl
  | cons s l ih =>
    intro sp cur base
    show (stateNode cur s sp :: nodesSpec sp base (base + 1)
      (statesToItems l)).length = l.length + 1
    simp [ih sp base (base + 1)]

/-- The chain shape of the nodes appended for a queue of states: the i-th
appended node holds the i-th state, is tagged with the step profile, and
its parent is the starting node for i = 0 and the previous appended node
otherwise. -/
theorem nodesSpec_states_get (l : List State) :
    ∀ (sp : StepProfile) (cur base i : Nat) (s : State),
    l[i]? = some s →
    (nodesSpec sp cur base (statesToItems l))[i]? =
      some (stateNode (if i = 0 then cur else base + i - 1) s sp) := by
  induction l with
  | nil => intro sp cur base i s hs; simp at hs
  | cons hd tl ih =>
    intro sp cur base i s hs
    cases i with
    | zero =>
      rw [List.getElem?_cons_zero] at hs
      obtain rfl : hd = s := by simpa using hs
      show (stateNode cur hd sp ::
        nodesSpec sp base (base + 1) (statesToItems tl))[0]? = _
      rw [List.getElem?_cons_zero]
      simp
    | succ i =>
      rw [List.getElem?_cons_succ] at hs
      have hrec := ih sp base (base + 1) i s hs
      show (stateNode cur hd sp ::
        nodesSpec sp base (base + 1) (statesToItems tl))[i + 1]? = _
      rw [List.getElem?_cons_succ, hrec]
      have harith : (if i = 0 then base else base + 1 + i - 1) =
          base + (i + 1) - 1 := by
        by_cases hi : i = 0 <;> simp [hi]
      rw [harith]
      simp

theorem endsSpec_ne_nil (q : List QueueItem) :
    ∀ (sp : StepProfile) (cur base : Nat),
    legalQueue q = true → hasEnd q = true →
    endsSpec sp cur base q ≠ [] := by
  induction q with
  | nil => intro sp cur base _ hend; simp [hasEnd] at hend
  | cons item rest ih =>
    intro sp cur base hlegal hend
    cases item with
    | state s => exact ih sp base (base + 1) hlegal hend
    | endMarker => simp [endsSpec]
    | stepProfile p => exact ih p cur base hlegal hend
    | other t => simp [legalQueue] at hlegal

/-! ### Claim theorems: the drain operation -/

/-- C1: draining a work queue holding exactly N `State` items (and nothing
else) adds exactly N nodes to the tree — each appended, per `nodesSpec`, as
a child of the running "current" pointer starting at the job\'s node and
tagged with the step profile recorded for the cruncher in `step_profiles`,
in the FIFO order produced — records no tree ends, and returns the pair
`(N, last node added)`. -/
theorem C1_drain_states (m : CrunchingManager) (cid jid : Nat) (ret : Bool)
    (l : List State) (sp : StepProfile)
    (hq : (m.cruncherStore cid).work_queue = statesToItems l)
    (hsp : dlookup m.step_profiles cid = some sp) :
    match add_work_to_tree m cid jid ret with
    | Except.ok (m', added, leaf) =>
      added = l.length ∧
      m'.tree.nodes = m.tree.nodes ++
        nodesSpec sp (m.jobStore jid).node m.tree.nodes.length
          (statesToItems l) ∧
      m'.tree.nodes.length = m.tree.nodes.length + l.length ∧
      leaf = (if l.isEmpty then (m.jobStore jid).node
              else m.tree.nodes.length + l.length - 1) ∧
      m'.tree.ends = m.tree.ends
    | Except.error _ => False := by
  have hlegal : legalQueue (m.cruncherStore cid).work_queue = true := by
    rw [hq]; exact legalQueue_states l
  obtain ⟨m', hres, hnodes, hends, hsps, hjob, hjobs2, halive, hctype, hwq,
      hcrs2, hev, hjl, hcr, htr, hct, hnc⟩ :=
    add_work_to_tree_spec m cid jid ret sp hsp hlegal
  rw [hres]
  rw [hq] at hnodes hends ⊢
  refine ⟨?_, hnodes, ?_, ?_, ?_⟩
  · exact countStates_states l
  · rw [hnodes]
    simp [nodesSpec_states_length]
  · rw [currentSpec_states]
  · rw [hends, endsSpec_states]
    simp

/-- C4: when the drained queue (holding only contract items) contains an
end marker, the cruncher is retired even though the `retire` argument is
false, the job\'s `resulted_in_end` flag is set, and the running "current"
node is marked as a tree end tagged (per `endsSpec`) with the step profile
current for the cruncher at that point; at least one end is recorded. -/
theorem C4_end_marker_forces_retirement (m : CrunchingManager)
    (cid jid : Nat) (sp : StepProfile)
    (hsp : dlookup m.step_profiles cid = some sp)
    (hlegal : legalQueue (m.cruncherStore cid).work_queue = true)
    (hend : hasEnd (m.cruncherStore cid).work_queue = true) :
    match add_work_to_tree m cid jid false with
    | Except.ok (m', _, _) =>
      (m'.cruncherStore cid).alive = false ∧
      m'.events = m.events ++ [Event.retired cid] ∧
      (m'.jobStore jid).resulted_in_end = true ∧
      m'.tree.ends = m.tree.ends ++
        endsSpec sp (m.jobStore jid).node m.tree.nodes.length
          (m.cruncherStore cid).work_queue ∧
      0 < (endsSpec sp (m.jobStore jid).node m.tree.nodes.length
        (m.cruncherStore cid).work_queue).length
    | Except.error _ => False := by
  obtain ⟨m', hres, hnodes, hends, hsps, hjob, hjobs2, halive, hctype, hwq,
      hcrs2, hev, hjl, hcr, htr, hct, hnc⟩ :=
    add_work_to_tree_spec m cid jid false sp hsp hlegal
  have hcond : (false || ((m.jobStore jid).resulted_in_end ||
      hasEnd (m.cruncherStore cid).work_queue)) = true := by
    rw [hend]; simp
  rw [hres]
  refine ⟨?_, ?_, ?_, hends, ?_⟩
  · rw [halive, if_pos hcond]
  · rw [hev, if_pos hcond]
  · rw [hjob]
    show ((m.jobStore jid).resulted_in_end ||
      hasEnd (m.cruncherStore cid).work_queue) = true
    rw [hend]
    simp
  · exact List.length_pos.mpr
      (endsSpec_ne_nil (m.cruncherStore cid).work_queue sp
        (m.jobStore jid).node m.tree.nodes.length hlegal hend)

/-- C10: a drain of a job whose `resulted_in_end` flag is already set at
entry retires the cruncher even with `retire = false` and no end marker in
the queue this time: the retirement test reads the job\'s persistent flag,
not whether an end marker was just seen. -/
theorem C10_retire_tests_persistent_flag (m : CrunchingManager)
    (cid jid : Nat) (m' : CrunchingManager) (added leaf : Nat)
    (hrie : (m.jobStore jid).resulted_in_end = true)
    (hnoend : hasEnd (m.cruncherStore cid).work_queue = false)
    (h : add_work_to_tree m cid jid false = Except.ok (m', added, leaf)) :
    m'.events = m.events ++ [Event.retired cid] ∧
    (m'.cruncherStore cid).alive = false := by
  obtain ⟨_, _, _, _, hrie', _, _, _, _, _, _, _, _, _, himpl⟩ :=
    add_work_to_tree_frame m cid jid false m' added leaf h
  apply himpl
  rw [hrie', hrie, hnoend]
  rfl

/-! ### Concrete instances used by witnesses and counterexamples -/

/-- A step profile used in concrete runs. -/
def wsp0 : StepProfile := { step_function := 0, args := [], kwargs := [] }

/-- A second, different step profile. -/
def wsp1 : StepProfile := { step_function := 1, args := [], kwargs := [] }

/-- A root tree node at clock 0, not in editing. -/
def wroot : Node :=
  { parent := none, state := 0, clock := 0, still_in_editing := false,
    step_profile := none }

/-- A one-node tree. -/
def wtree : Tree := { nodes := [wroot], ends := [] }

/-- A crunching profile with clock target 10 and step profile `wsp0`. -/
def wcpA : CrunchingProfile :=
  { clock_target := some 10, step_profile := wsp0 }

/-- A job at the root with crunching profile `wcpA`. -/
def wjobA : Job :=
  { node := 0, crunching_profile := wcpA, resulted_in_end := false }

/-- Two produced states at clocks 1 and 2. -/
def w1l : List State := [{ val := 1, clock := 1 }, { val := 2, clock := 2 }]

/-- A manager with one job (id 0) whose cruncher (id 0) has produced the
two states of `w1l`. -/
def w1m : CrunchingManager :=
  { tree := wtree, jobs := [0], jobStore := fun _ => wjobA,
    cruncherStore := fun _ =>
      { ctype := 7, alive := true, work_queue := statesToItems w1l,
        crunching_profile := wjobA.crunching_profile },
    crunchers := [(0, 0)], step_profiles := [(0, wsp0)],
    crunching_profiles_change_tracker := [(0, wjobA.crunching_profile)],
    cruncher_type := 7, next_cruncher := 1, events := [] }

theorem C1_drain_states_witness :
    match add_work_to_tree w1m 0 0 false with
    | Except.ok (m', added, leaf) =>
      added = w1l.length ∧
      m'.tree.nodes = w1m.tree.nodes ++
        nodesSpec wsp0 (w1m.jobStore 0).node w1m.tree.nodes.length
          (statesToItems w1l) ∧
      m'.tree.nodes.length = w1m.tree.nodes.length + w1l.length ∧
      leaf = (if w1l.isEmpty then (w1m.jobStore 0).node
              else w1m.tree.nodes.length + w1l.length - 1) ∧
      m'.tree.ends = w1m.tree.ends
    | Except.error _ => False :=
  C1_drain_states w1m 0 0 false w1l wsp0 rfl (by decide)

/-- As `w1m`, but the queue ends with an end marker after one state. -/
def w4m : CrunchingManager :=
  { w1m with
    cruncherStore := fun _ =>
      { ctype := 7, alive := true,
        work_queue := [QueueItem.state { val := 1, clock := 1 },
          QueueItem.endMarker],
        crunching_profile := wjobA.crunching_profile } }

theorem C4_end_marker_forces_retirement_witness :
    match add_work_to_tree w4m 0 0 false with
    | Except.ok (m', _, _) =>
      (m'.cruncherStore 0).alive = false ∧
      m'.events = w4m.events ++ [Event.retired 0] ∧
      (m'.jobStore 0).resulted_in_end = true ∧
      m'.tree.ends = w4m.tree.ends ++
        endsSpec wsp0 (w4m.jobStore 0).node w4m.tree.nodes.length
          (w4m.cruncherStore 0).work_queue ∧
      0 < (endsSpec wsp0 (w4m.jobStore 0).node w4m.tree.nodes.length
        (w4m.cruncherStore 0).work_queue).length
    | Except.error _ => False :=
  C4_end_marker_forces_retirement w4m 0 0 wsp0 (by decide) (by decide)
    (by decide)

/-- As `w1m`, but the job already carries `resulted_in_end = true` and the
queue holds a single state and no end marker. -/
def w10m : CrunchingManager :=
  { w1m with
    jobStore := fun _ => { wjobA with resulted_in_end := true },
    cruncherStore := fun _ =>
      { ctype := 7, alive := true,
        work_queue := [QueueItem.state { val := 1, clock := 1 }],
        crunching_profile := wjobA.crunching_profile } }

/-- The manager resulting from the drain of `w10m`. -/
def w10res : CrunchingManager :=
  match add_work_to_tree w10m 0 0 false with
  | Except.ok r => r.1
  | Except.error _ => w10m

theorem C10_retire_tests_persistent_flag_witness :
    w10res.events = w10m.events ++ [Event.retired 0] ∧
    (w10res.cruncherStore 0).alive = false :=
  C10_retire_tests_persistent_flag w10m 0 0 w10res 1 1 (by decide) (by decide)
    rfl

/-! ### Claim theorems: cruncher creation, construction, errors, equality -/

/-- C6: the conditional-creation operation does nothing — no cruncher is
instantiated, started or recorded, no profile is checked in — when the
job\'s node is still in editing; it creates only when the flag is false. -/
theorem C6_no_cruncher_while_editing (m : CrunchingManager) (jid : Nat)
    (h : (nodeAt m.tree (m.jobStore jid).node).still_in_editing = true) :
    m.conditional_create_cruncher jid = m := by
  unfold CrunchingManager.conditional_create_cruncher
  simp [h]

/-- A root node in editing. -/
def wrootEditing : Node :=
  { parent := none, state := 0, clock := 0, still_in_editing := true,
    step_profile := none }

/-- A one-node tree whose root is in editing. -/
def wtreeEditing : Tree := { nodes := [wrootEditing], ends := [] }

/-- As `w1m` but with the root node in editing and no crunchers. -/
def w6m : CrunchingManager :=
  { w1m with tree := wtreeEditing, crunchers := [], step_profiles := [] }

theorem C6_no_cruncher_while_editing_witness :
    w6m.conditional_create_cruncher 0 = w6m :=
  C6_no_cruncher_while_editing w6m 0 (by decide)

/-- C8: construction fails with the configuration error exactly when the
simulation package\'s list of available cruncher types is empty, and
otherwise selects the first element as `cruncher_type`. -/
theorem C8_init_selects_first_cruncher_type (p : Project) :
    (p.simpack_grokker.available_cruncher_types = [] →
      CrunchingManager.init p = Except.error CMError.configurationError) ∧
    (∀ (t : Nat) (ts : List Nat),
      p.simpack_grokker.available_cruncher_types = t :: ts →
      initCruncherType (CrunchingManager.init p) = some t) := by
  constructor
  · intro h
    simp [CrunchingManager.init, h]
  · intro t ts h
    simp [CrunchingManager.init, initCruncherType, h]

/-- A project declaring no cruncher types. -/
def w8pEmpty : Project :=
  { simpack_grokker := { available_cruncher_types := [] }, tree := wtree }

/-- A project declaring cruncher types 3 and 5. -/
def w8pGood : Project :=
  { simpack_grokker := { available_cruncher_types := [3, 5] }, tree := wtree }

theorem C8_init_selects_first_cruncher_type_witness :
    CrunchingManager.init w8pEmpty =
      Except.error CMError.configurationError ∧
    initCruncherType (CrunchingManager.init w8pGood) = some 3 :=
  ⟨(C8_init_selects_first_cruncher_type w8pEmpty).1 rfl,
   (C8_init_selects_first_cruncher_type w8pGood).2 3 [5] rfl⟩

theorem kwargsLookup_setKwarg (kw : List (String × Nat)) (k : String)
    (v v' : Nat) (hv : kwargsLookup kw k = some v) :
    kwargsLookup (setKwarg kw k v') k = some v' := by
  induction kw with
  | nil => simp [kwargsLookup] at hv
  | cons p rest ih =>
    by_cases hp : (p.1 == k) = true
    · have hpk : p.1 = k := eq_of_beq hp
      have hsk : setKwarg (p :: rest) k v' =
          (p.1, v') :: setKwarg rest k v' := by
        simp [setKwarg, hpk]
      show (List.find? (fun q => q.1 == k)
        (setKwarg (p :: rest) k v')).map Prod.snd = some v'
      rw [hsk, List.find?_cons_of_pos _ (by simpa using hp)]
      rfl
    · have hv2 : kwargsLookup rest k = some v := by
        unfold kwargsLookup at hv
        rw [List.find?_cons_of_neg _ (by simpa using hp)] at hv
        exact hv
      have hpk : ¬ p.1 = k := fun he => hp (by simp [he])
      have hsk : setKwarg (p :: rest) k v' = p :: setKwarg rest k v' := by
        simp [setKwarg, hpk]
      show (List.find? (fun q => q.1 == k)
        (setKwarg (p :: rest) k v')).map Prod.snd = some v'
      rw [hsk, List.find?_cons_of_neg _ (by simpa using hp)]
      exact ih hv2

theorem kwargsEquiv_setKwarg_false (kw : List (String × Nat)) (k : String)
    (v v' : Nat) (hv : kwargsLookup kw k = some v) (hne : v ≠ v') :
    kwargsEquiv kw (setKwarg kw k v') = false := by
  cases hfind : kw.find? (fun p => p.1 == k) with
  | none =>
    unfold kwargsLookup at hv
    rw [hfind] at hv
    simp at hv
  | some q =>
    have hq2 : q.2 = v := by
      unfold kwargsLookup at hv
      rw [hfind] at hv
      simpa using hv
    have hmem : q ∈ kw := List.mem_of_find?_eq_some hfind
    have hpred := List.find?_some hfind
    have hk : q.1 = k := eq_of_beq (by simpa using hpred)
    have hlook : kwargsLookup (setKwarg kw k v') q.1 = some v' := by
      rw [hk]
      exact kwargsLookup_setKwarg kw k v v' hv
    cases h : kwargsEquiv kw (setKwarg kw k v') with
    | false => rfl
    | true =>
      exfalso
      unfold kwargsEquiv at h
      simp only [Bool.and_eq_true, List.all_eq_true] at h
      have h3 := h.1 q hmem
      rw [hlook] at h3
      simp at h3
      exact hne (hq2 ▸ h3.symm)

/-- C9: step profiles built from the same function with equal positional
arguments and extensionally equal keyword arguments compare equal under
`__eq__`; profiles differing only in the value bound to one keyword
compare unequal under `__ne__`. -/
theorem C9_step_profile_equality :
    (∀ (f : Nat) (args : List Nat) (kw kw' : List (String × Nat)),
      kwargsEquiv kw kw' = true →
      StepProfile.eq (StepProfile.make f args kw)
        (StepProfile.make f args kw') = true) ∧
    (∀ (f : Nat) (args : List Nat) (kw : List (String × Nat)) (k : String)
      (v v' : Nat),
      kwargsLookup kw k = some v → v ≠ v' →
      StepProfile.ne (StepProfile.make f args kw)
        (StepProfile.make f args (setKwarg kw k v')) = true) := by
  constructor
  · intro f args kw kw' h
    simp [StepProfile.eq, StepProfile.make, h]
  · intro f args kw k v v' hv hne
    simp [StepProfile.ne, StepProfile.eq, StepProfile.make,
      kwargsEquiv_setKwarg_false kw k v v' hv hne]

theorem C9_step_profile_equality_witness :
    StepProfile.eq (StepProfile.make 1 [2] [("g", 3)])
      (StepProfile.make 1 [2] [("g", 3)]) = true ∧
    StepProfile.ne (StepProfile.make 1 [2] [("g", 3)])
      (StepProfile.make 1 [2] (setKwarg [("g", 3)] "g" 4)) = true :=
  ⟨C9_step_profile_equality.1 1 [2] [("g", 3)] [("g", 3)] (by decide),
   C9_step_profile_equality.2 1 [2] [("g", 3)] "g" 3 4 (by decide)
     (by decide)⟩

/-- C7: a queue item outside the closed contract makes the drain raise the
unexpected-queue-item error, and `sync_crunchers` surfaces it to its caller
unchanged — the sync call aborts with that error. -/
theorem C7_unexpected_item_aborts_sync (m : CrunchingManager)
    (jid cid t : Nat) (pre rest : List QueueItem)
    (hjobs : m.jobs = [jid])
    (hcr : m.crunchers = [(jid, cid)])
    (hsome : (dlookup m.step_profiles cid).isSome)
    (hq : (m.cruncherStore cid).work_queue = pre ++ QueueItem.other t :: rest)
    (hpre : legalQueue pre = true) :
    sync_crunchers m =
      Except.error (CMError.unexpectedQueueItem (QueueItem.other t)) := by
  obtain ⟨sp, hsp⟩ := Option.isSome_iff_exists.mp hsome
  have hdrain : add_work_to_tree m cid jid false =
      Except.error (CMError.unexpectedQueueItem (QueueItem.other t)) := by
    simp only [add_work_to_tree, hsp]
    rw [hq]
    rw [add_work_loop_error pre
      (m.setCruncher cid (m.cruncherStore cid).clearQueue) cid jid
      (m.jobStore jid).node 0 t rest hsome hpre]
  have hp1 : sync_phase_one m 0 m.crunchers = Except.ok (m, 0) := by
    rw [hcr]
    simp [sync_phase_one, hjobs]
  have hlook : dlookup m.crunchers jid = some cid := by
    rw [hcr]; simp [dlookup]
  unfold sync_crunchers
  rw [hp1]
  show sync_phase_two m 0 m.jobs = _
  rw [hjobs]
  simp [sync_phase_two, hlook, hdrain]

/-- As `w1m` but the queue holds a state and then an object outside the
contract. -/
def w7m : CrunchingManager :=
  { w1m with
    cruncherStore := fun _ =>
      { ctype := 7, alive := true,
        work_queue := [QueueItem.state { val := 1, clock := 1 },
          QueueItem.other 42],
        crunching_profile := wjobA.crunching_profile } }

theorem C7_unexpected_item_aborts_sync_witness :
    sync_crunchers w7m =
      Except.error (CMError.unexpectedQueueItem (QueueItem.other 42)) :=
  C7_unexpected_item_aborts_sync w7m 0 0 42
    [QueueItem.state { val := 1, clock := 1 }] [] rfl rfl (by decide) rfl
    (by decide)

/-- Components `__conditional_create_cruncher` never touches, whether or
not a cruncher is created. -/
theorem conditional_create_frame (m : CrunchingManager) (jid : Nat) :
    (m.conditional_create_cruncher jid).jobs = m.jobs ∧
    (m.conditional_create_cruncher jid).jobStore = m.jobStore ∧
    (m.conditional_create_cruncher jid).tree = m.tree ∧
    (m.conditional_create_cruncher jid).cruncher_type = m.cruncher_type := by
  unfold CrunchingManager.conditional_create_cruncher
  by_cases h : (nodeAt m.tree (m.jobStore jid).node).still_in_editing = false
  · simp [h]
  · simp [h]

/-- The full effect of `__conditional_create_cruncher` when the job\'s node
is not in editing: a fresh cruncher of the selected type is created,
started, recorded in `crunchers`, the profile is checked in, and its step
profile recorded in `step_profiles`. -/
theorem conditional_create_spec (m : CrunchingManager) (jid : Nat)
    (h : (nodeAt m.tree (m.jobStore jid).node).still_in_editing = false) :
    (m.conditional_create_cruncher jid).events =
      m.events ++ [Event.created m.next_cruncher jid] ∧
    (m.conditional_create_cruncher jid).crunchers =
      dset m.crunchers jid m.next_cruncher ∧
    (m.conditional_create_cruncher jid).step_profiles =
      dset m.step_profiles m.next_cruncher
        (m.jobStore jid).crunching_profile.step_profile ∧
    (m.conditional_create_cruncher jid).cruncherStore m.next_cruncher =
      { ctype := m.cruncher_type, alive := true, work_queue := [],
        crunching_profile := (m.jobStore jid).crunching_profile } ∧
    (∀ c, c ≠ m.next_cruncher →
      (m.conditional_create_cruncher jid).cruncherStore c =
        m.cruncherStore c) ∧
    (m.conditional_create_cruncher jid).next_cruncher =
      m.next_cruncher + 1 := by
  unfold CrunchingManager.conditional_create_cruncher
  rw [if_pos h]
  refine ⟨rfl, rfl, rfl, ?_, ?_, rfl⟩
  · show (if m.next_cruncher = m.next_cruncher then _ else _) = _
    rw [if_pos rfl]
  · intro c hc
    show (if c = m.next_cruncher then _ else m.cruncherStore c) =
      m.cruncherStore c
    rw [if_neg hc]

/-- C2 amended: for a job with an assigned, alive cruncher of the current
cruncher type that is not done after draining, when the job\'s step profile
differs from the one recorded for the cruncher — and provided the job\'s
node (after draining) is not in editing — the sync call performs exactly
one retire of the old cruncher and one creation of a replacement, records
the job\'s step profile for the new cruncher, and never takes the
change-tracker update path (the event log gains exactly
`[retired, created]`). -/
theorem C2_amended (m : CrunchingManager) (jid cid : Nat) (sp : StepProfile)
    (m₁ : CrunchingManager) (added leaf : Nat)
    (h1 : m.jobs = [jid]) (h2 : m.crunchers = [(jid, cid)])
    (h3 : dlookup m.step_profiles cid = some sp)
    (h4 : legalQueue (m.cruncherStore cid).work_queue = true)
    (h5 : hasEnd (m.cruncherStore cid).work_queue = false)
    (h6 : (m.jobStore jid).resulted_in_end = false)
    (h7 : (m.cruncherStore cid).alive = true)
    (h8 : (m.cruncherStore cid).ctype = m.cruncher_type)
    (hfresh : m.next_cruncher ≠ cid)
    (hdrain : add_work_to_tree m cid jid false = Except.ok (m₁, added, leaf))
    (hdone : (m₁.setJob jid
      { m₁.jobStore jid with node := leaf }).job_is_done jid = false)
    (hmis : StepProfile.eq (m.jobStore jid).crunching_profile.step_profile
      (finalProfile sp (m.cruncherStore cid).work_queue) = false)
    (hedit : (nodeAt m₁.tree leaf).still_in_editing = false) :
    match sync_crunchers m with
    | Except.ok (mf, n) =>
      n = added ∧
      mf.events = m.events ++
        [Event.retired cid, Event.created m.next_cruncher jid] ∧
      dlookup mf.step_profiles m.next_cruncher =
        some (m.jobStore jid).crunching_profile.step_profile ∧
      dlookup mf.crunchers jid = some m.next_cruncher ∧
      (mf.cruncherStore m.next_cruncher).alive = true ∧
      (mf.cruncherStore m.next_cruncher).ctype = m.cruncher_type ∧
      (mf.cruncherStore cid).alive = false
    | Except.error _ => False := by
  obtain ⟨m', hres, hnodes, hends, hsps, hjob, hjobs2, halive, hctype, hwq,
      hcrs2, hev, hjl, hcr, htr, hct, hnc⟩ :=
    add_work_to_tree_spec m cid jid false sp h3 h4
  rw [hdrain] at hres
  simp only [Except.ok.injEq, Prod.mk.injEq] at hres
  obtain ⟨hm', hadded, hleaf⟩ := hres
  subst hm'
  have hcondf : (false || ((m.jobStore jid).resulted_in_end ||
      hasEnd (m.cruncherStore cid).work_queue)) = false := by
    rw [h6, h5]
    rfl
  rw [hcondf] at halive hev
  simp at halive hev
  rw [h7] at halive
  have hp1 : sync_phase_one m 0 m.crunchers = Except.ok (m, 0) := by
    rw [h2]
    simp [sync_phase_one, h1]
  have hlookc : dlookup m.crunchers jid = some cid := by
    rw [h2]
    simp [dlookup]
  unfold sync_crunchers
  rw [hp1]
  show (match sync_phase_two m 0 m.jobs with
    | Except.ok (mf, n) => _ | Except.error _ => False)
  rw [h1]
  simp only [sync_phase_two, hlookc, hdrain]
  set M2 : CrunchingManager :=
    m₁.setJob jid { m₁.jobStore jid with node := leaf } with hM2
  have hcond2 : (M2.cruncherStore cid).alive = true ∧
      (M2.cruncherStore cid).ctype = M2.cruncher_type := by
    constructor
    · exact halive
    · show (m₁.cruncherStore cid).ctype = m₁.cruncher_type
      rw [hctype, h8, hct]
  have hsp2M : dlookup M2.step_profiles cid =
      some (finalProfile sp (m.cruncherStore cid).work_queue) := by
    show dlookup m₁.step_profiles cid = _
    rw [hsps cid, if_pos rfl]
  have hjobM2 : M2.jobStore jid = { m₁.jobStore jid with node := leaf } := by
    show (if jid = jid then _ else _) = _
    rw [if_pos rfl]
  have hcp2 : (M2.jobStore jid).crunching_profile =
      (m.jobStore jid).crunching_profile := by
    rw [hjobM2]
    show (m₁.jobStore jid).crunching_profile = _
    rw [hjob]
  have hmis2 : StepProfile.eq
      (M2.jobStore jid).crunching_profile.step_profile
      (finalProfile sp (m.cruncherStore cid).work_queue) = false := by
    rw [hcp2]
    exact hmis
  rw [if_pos hdone, if_pos hcond2]
  simp only [hsp2M]
  rw [if_pos hmis2, if_pos hcond2.1]
  set M3 : CrunchingManager := M2.retireCruncher cid with hM3
  have hnodeM3 : (M3.jobStore jid).node = leaf := by
    show (M2.jobStore jid).node = leaf
    rw [hjobM2]
  have heditM3 : (nodeAt M3.tree (M3.jobStore jid).node).still_in_editing =
      false := by
    rw [hnodeM3]
    exact hedit
  obtain ⟨hcev, hccr, hcsp, hcstore, hcother, hcnext⟩ :=
    conditional_create_spec M3 jid heditM3
  have hnext3 : M3.next_cruncher = m.next_cruncher := hnc
  have hev3 : M3.events = m.events ++ [Event.retired cid] := by
    show m₁.events ++ [Event.retired cid] = _
    rw [hev]
  have hcr3 : M3.crunchers = [(jid, cid)] := by
    show m₁.crunchers = _
    rw [hcr, h2]
  have hrc : M3.cruncherStore cid =
      { m₁.cruncherStore cid with alive := false } := by
    show (if cid = cid then _ else _) = _
    rw [if_pos rfl]
    rfl
  refine ⟨Nat.zero_add added, ?_, ?_, ?_, ?_, ?_, ?_⟩
  · rw [hcev, hev3, hnext3]
    simp
  · rw [hcsp, hnext3, dlookup_dset_self,
      show (M3.jobStore jid).crunching_profile =
        (m.jobStore jid).crunching_profile from hcp2]
  · rw [hccr, hcr3, hnext3, dlookup_dset_self]
  · rw [hnext3] at hcstore
    rw [hcstore]
  · rw [hnext3] at hcstore
    rw [hcstore]
    show M3.cruncher_type = m.cruncher_type
    exact hct
  · have hcne : cid ≠ M3.next_cruncher := by
      rw [hnext3]
      exact fun hh => hfresh hh.symm
    rw [hcother cid hcne, hrc]

theorem mem_dset {α : Type} (l : List (Nat × α)) (k : Nat) (v : α)
    (p : Nat × α) (h : p ∈ dset l k v) : p ∈ l ∨ p = (k, v) := by
  induction l with
  | nil => simpa [dset] using h
  | cons q rest ih =>
    by_cases hq : q.1 = k
    · simp only [dset, if_pos hq, List.mem_cons] at h
      rcases h with h | h
      · exact Or.inr h
      · exact Or.inl (List.mem_cons_of_mem _ h)
    · simp only [dset, if_neg hq, List.mem_cons] at h
      rcases h with h | h
      · exact Or.inl (h ▸ List.mem_cons_self _ _)
      · rcases ih h with h2 | h2
        · exact Or.inl (List.mem_cons_of_mem _ h2)
        · exact Or.inr h2

theorem nodeAt_append (t t' : Tree) (n : Nat) (ns : List Node)
    (hns : t'.nodes = t.nodes ++ ns) (hlt : n < t.nodes.length) :
    nodeAt t' n = nodeAt t n := by
  unfold nodeAt
  rw [hns]
  exact List.getD_append _ _ _ _ hlt

/-- `is_done` only reads the job\'s record and its node in the tree; it is
unchanged when the job record is unchanged and the tree only grew beyond
the (valid) node. -/
theorem job_is_done_stable (m m' : CrunchingManager) (j : Nat)
    (ns : List Node)
    (hjs : m'.jobStore j = m.jobStore j)
    (hns : m'.tree.nodes = m.tree.nodes ++ ns)
    (hwf : (m.jobStore j).node < m.tree.nodes.length) :
    m'.job_is_done j = m.job_is_done j := by
  unfold CrunchingManager.job_is_done
  rw [hjs]
  show ((m.jobStore j).resulted_in_end ||
      clockReached (nodeAt m'.tree (m.jobStore j).node).clock
        (m.jobStore j).crunching_profile.clock_target) =
    ((m.jobStore j).resulted_in_end ||
      clockReached (nodeAt m.tree (m.jobStore j).node).clock
        (m.jobStore j).crunching_profile.clock_target)
  rw [nodeAt_append m.tree m'.tree (m.jobStore j).node ns hns hwf]

/-- Frame facts of the reap loop (phase one of `sync_crunchers`): the job
list and the records of live jobs are untouched, the tree only grows,
recorded step profiles are never dropped, and the `crunchers` map only
shrinks. -/
theorem sync_phase_one_master (entries : List (Nat × Nat)) :
    ∀ (m : CrunchingManager) (total : Nat) (m' : CrunchingManager) (n : Nat),
    sync_phase_one m total entries = Except.ok (m', n) →
    m'.jobs = m.jobs ∧
    (∀ j, j ∈ m.jobs → m'.jobStore j = m.jobStore j) ∧
    (∃ ns, m'.tree.nodes = m.tree.nodes ++ ns) ∧
    (∀ c, (dlookup m.step_profiles c).isSome = true →
      (dlookup m'.step_profiles c).isSome = true) ∧
    (∀ p, p ∈ m'.crunchers → p ∈ m.crunchers) := by
  induction entries with
  | nil =>
    intro m total m' n h
    simp only [sync_phase_one, Except.ok.injEq, Prod.mk.injEq] at h
    obtain ⟨rfl, rfl⟩ := h
    exact ⟨rfl, fun _ _ => rfl, ⟨[], by simp⟩, fun _ hk => hk,
      fun _ hp => hp⟩
  | cons e rest ih =>
    intro m total m' n h
    obtain ⟨jid, cid⟩ := e
    by_cases hmem : jid ∈ m.jobs
    · rw [show sync_phase_one m total ((jid, cid) :: rest) =
          if jid ∈ m.jobs then sync_phase_one m total rest
          else _ from rfl, if_pos hmem] at h
      exact ih m total m' n h
    · rw [show sync_phase_one m total ((jid, cid) :: rest) =
          if jid ∈ m.jobs then sync_phase_one m total rest
          else match add_work_to_tree m cid jid true with
            | Except.error e => Except.error e
            | Except.ok (m₂, added, _) =>
              sync_phase_one { m₂ with crunchers := derase m₂.crunchers jid }
                (total + added) rest from rfl, if_neg hmem] at h
      split at h
      · exact absurd h (by simp)
      · rename_i m₂ added leaf heq
        obtain ⟨⟨ns, hns⟩, hjobs, _, _, _, hisSome, _, hjl, hcrs, _, _, _,
            _, _, _⟩ :=
          add_work_to_tree_frame m cid jid true m₂ added leaf heq
        obtain ⟨ihjl, ihjobs, ⟨ns2, ihns⟩, ihisSome, ihcr⟩ :=
          ih _ (total + added) m' n h
        refine ⟨?_, ?_, ?_, ?_, ?_⟩
        · rw [ihjl]
          exact hjl
        · intro j hj
          rw [ihjobs j (by rw [hjl]; exact hj)]
          exact hjobs j (fun hje => hmem (hje ▸ hj))
        · exact ⟨ns ++ ns2, by rw [ihns, hns, List.append_assoc]⟩
        · intro c hc
          exact ihisSome c (hisSome c hc)
        · intro p hp
          have h2 := ihcr p hp
          show p ∈ m.crunchers
          rw [← hcrs]
          exact mem_derase m₂.crunchers jid p h2

theorem job_is_done_congr (m m' : CrunchingManager) (j : Nat)
    (hjs : m'.jobStore j = m.jobStore j) (ht : m'.tree = m.tree) :
    m'.job_is_done j = m.job_is_done j := by
  unfold CrunchingManager.job_is_done
  rw [hjs, ht]

/-- `__conditional_create_cruncher` never drops a `step_profiles`
entry. -/
theorem conditional_create_mono (m : CrunchingManager) (jid : Nat) :
    ∀ c, (dlookup m.step_profiles c).isSome = true →
      (dlookup (m.conditional_create_cruncher jid).step_profiles c).isSome
        = true := by
  unfold CrunchingManager.conditional_create_cruncher
  by_cases hed :
    (nodeAt m.tree (m.jobStore jid).node).still_in_editing = false
  · rw [if_pos hed]
    exact fun c hc => isSome_dlookup_dset _ _ _ _ hc
  · rw [if_neg hed]
    exact fun _ hc => hc

/-- `__conditional_create_cruncher` keeps the step-profile bookkeeping
consistent: every cruncher in `crunchers` keeps (or gains) a
`step_profiles` entry, and no recorded entry is dropped. -/
theorem conditional_create_P (m : CrunchingManager) (jid : Nat)
    (hP : ∀ p, p ∈ m.crunchers →
      (dlookup m.step_profiles p.2).isSome = true) :
    (∀ p, p ∈ (m.conditional_create_cruncher jid).crunchers →
      (dlookup (m.conditional_create_cruncher jid).step_profiles p.2).isSome
        = true) ∧
    (∀ c, (dlookup m.step_profiles c).isSome = true →
      (dlookup (m.conditional_create_cruncher jid).step_profiles c).isSome
        = true) := by
  unfold CrunchingManager.conditional_create_cruncher
  by_cases h : (nodeAt m.tree (m.jobStore jid).node).still_in_editing = false
  · rw [if_pos h]
    constructor
    · intro p hp
      show (dlookup (dset m.step_profiles m.next_cruncher
        (m.jobStore jid).crunching_profile.step_profile) p.2).isSome = true
      rcases mem_dset m.crunchers jid m.next_cruncher p hp with hin | hnew
      · exact isSome_dlookup_dset _ _ _ _ (hP p hin)
      · rw [hnew]
        show (dlookup (dset m.step_profiles m.next_cruncher _)
          m.next_cruncher).isSome = true
        rw [dlookup_dset_self]
        rfl
    · intro c hc
      exact isSome_dlookup_dset _ _ _ _ hc
  · rw [if_neg h]
    exact ⟨hP, fun _ hc => hc⟩

/-- The master invariant of the reconcile loop (phase two of
`sync_crunchers`): processing a duplicate-free job-list snapshot leaves no
done job in the job list, and keeps every cruncher of the `crunchers` map
holding a `step_profiles` entry (entries are never dropped). -/
theorem sync_phase_two_master (rest : List Nat) :
    ∀ (m : CrunchingManager) (total : Nat) (mf : CrunchingManager) (n : Nat),
    sync_phase_two m total rest = Except.ok (mf, n) →
    rest.Nodup →
    m.jobs.Nodup →
    (∀ j, j ∈ m.jobs → (m.jobStore j).node < m.tree.nodes.length) →
    (∀ j, j ∈ m.jobs → j ∈ rest ∨ m.job_is_done j = false) →
    (∀ j, j ∈ mf.jobs → mf.job_is_done j = false) ∧
    ((∀ p, p ∈ m.crunchers →
        (dlookup m.step_profiles p.2).isSome = true) →
      ∀ p, p ∈ mf.crunchers →
        (dlookup mf.step_profiles p.2).isSome = true) ∧
    (∀ c, (dlookup m.step_profiles c).isSome = true →
      (dlookup mf.step_profiles c).isSome = true) := by
  induction rest with
  | nil =>
    intro m total mf n h _ _ _ hinm
    simp only [sync_phase_two, Except.ok.injEq, Prod.mk.injEq] at h
    obtain ⟨rfl, rfl⟩ := h
    refine ⟨?_, fun hP => hP, fun _ hk => hk⟩
    intro j hj
    rcases hinm j hj with hin | hdone
    · simp at hin
    · exact hdone
  | cons jid rest' ih =>
    intro m total mf n h hrN hjN hwf hinm
    have hrN' : rest'.Nodup := (List.nodup_cons.mp hrN).2
    simp only [sync_phase_two] at h
    split at h
    · -- no cruncher for jid
      split at h
      · -- job done: removed from the job list
        rename_i hdd
        have hinm2 : ∀ j, j ∈ (m.jobs.erase jid) → j ∈ rest' ∨
            m.job_is_done j = false := by
          intro j hj
          have hj2 := (hjN.mem_erase_iff).mp hj
          rcases hinm j hj2.2 with hin | hdone2
          · rcases List.mem_cons.mp hin with rfl | hin2
            · exact absurd rfl hj2.1
            · exact Or.inl hin2
          · exact Or.inr hdone2
        obtain ⟨c1, c2, c3⟩ :=
          ih { m with jobs := m.jobs.erase jid } total mf n h hrN'
            (hjN.erase jid)
            (fun j hj => hwf j (List.mem_of_mem_erase hj)) hinm2
        exact ⟨c1, c2, c3⟩
      · -- job not done: conditionally create a cruncher
        rename_i hddn
        have hdd : m.job_is_done jid = false := Bool.eq_false_iff.mpr hddn
        obtain ⟨hfj, hfjs, hft, _⟩ := conditional_create_frame m jid
        have hmonoc := conditional_create_mono m jid
        have hwf2 : ∀ j, j ∈ (m.conditional_create_cruncher jid).jobs →
            ((m.conditional_create_cruncher jid).jobStore j).node <
              (m.conditional_create_cruncher jid).tree.nodes.length := by
          intro j hj
          rw [hfj] at hj
          rw [hfjs, hft]
          exact hwf j hj
        have hinm2 : ∀ j, j ∈ (m.conditional_create_cruncher jid).jobs →
            j ∈ rest' ∨
            (m.conditional_create_cruncher jid).job_is_done j = false := by
          intro j hj
          rw [hfj] at hj
          have hdc : (m.conditional_create_cruncher jid).job_is_done j =
              m.job_is_done j :=
            job_is_done_congr _ _ j (congrFun hfjs j) hft
          by_cases hje : j = jid
          · subst hje
            exact Or.inr (by rw [hdc]; exact hdd)
          · rcases hinm j hj with hin | hdone2
            · rcases List.mem_cons.mp hin with rfl | hin2
              · exact absurd rfl hje
              · exact Or.inl hin2
            · exact Or.inr (by rw [hdc]; exact hdone2)
        obtain ⟨c1, c2, c3⟩ := ih _ total mf n h hrN'
          (by rw [hfj]; exact hjN) hwf2 hinm2
        refine ⟨c1, ?_, fun c hc => c3 c (hmonoc c hc)⟩
        intro hP
        exact c2 ((conditional_create_P m jid hP).1)
    · -- jid has a cruncher cid
      rename_i cid hlk
      split at h
      · exact absurd h (by simp)
      · rename_i m₁ added leaf hdr
        obtain ⟨⟨ns, hns⟩, hjobs1, hnode1, hcp1, hrie1, hmono1, hleafd,
            hjl1, hcr1, htr1, hct1, hnc1, hevd1, hcso1, _⟩ :=
          add_work_to_tree_frame m cid jid false m₁ added leaf hdr
        set M2 : CrunchingManager :=
          m₁.setJob jid { m₁.jobStore jid with node := leaf } with hM2
        have hM2js_ne : ∀ j, j ≠ jid → M2.jobStore j = m.jobStore j := by
          intro j hj
          show (if j = jid then _ else m₁.jobStore j) = _
          rw [if_neg hj]
          exact hjobs1 j hj
        have hM2js_jid : M2.jobStore jid =
            { m₁.jobStore jid with node := leaf } := by
          show (if jid = jid then _ else _) = _
          rw [if_pos rfl]
        have hM2tree : M2.tree.nodes = m.tree.nodes ++ ns := hns
        have hM2len : m.tree.nodes.length ≤ M2.tree.nodes.length := by
          rw [hM2tree]
          simp
        have hM2jobs : M2.jobs = m.jobs := hjl1
        have hM2wf : ∀ j, j ∈ M2.jobs →
            (M2.jobStore j).node < M2.tree.nodes.length := by
          intro j hj
          rw [hM2jobs] at hj
          by_cases hje : j = jid
          · subst hje
            rw [hM2js_jid]
            show leaf < M2.tree.nodes.length
            rcases hleafd with hl | hl
            · rw [hl]
              exact lt_of_lt_of_le (hwf j hj) hM2len
            · exact hl
          · rw [hM2js_ne j hje]
            exact lt_of_lt_of_le (hwf j hj) hM2len
        have hM2done_other : ∀ j, j ≠ jid → j ∈ m.jobs →
            M2.job_is_done j = m.job_is_done j := by
          intro j hj hjm
          exact job_is_done_stable m M2 j ns (hM2js_ne j hj) hM2tree
            (hwf j hjm)
        have hM2P : (∀ p, p ∈ m.crunchers →
            (dlookup m.step_profiles p.2).isSome = true) →
            ∀ p, p ∈ M2.crunchers →
            (dlookup M2.step_profiles p.2).isSome = true := by
          intro hP p hp
          show (dlookup m₁.step_profiles p.2).isSome = true
          refine hmono1 p.2 (hP p ?_)
          show p ∈ m.crunchers
          rw [← hcr1]
          exact hp
        split at h
        · -- job not yet done after the drain
          rename_i hdd2
          have hstep : ∀ (MX : CrunchingManager),
              sync_phase_two MX (total + added) rest' =
                Except.ok (mf, n) →
              MX.jobs = M2.jobs → MX.jobStore = M2.jobStore →
              MX.tree = M2.tree →
              ((∀ p, p ∈ m.crunchers →
                  (dlookup m.step_profiles p.2).isSome = true) →
                ∀ p, p ∈ MX.crunchers →
                  (dlookup MX.step_profiles p.2).isSome = true) →
              (∀ c, (dlookup m.step_profiles c).isSome = true →
                (dlookup MX.step_profiles c).isSome = true) →
              (∀ j, j ∈ mf.jobs → mf.job_is_done j = false) ∧
              ((∀ p, p ∈ m.crunchers →
                  (dlookup m.step_profiles p.2).isSome = true) →
                ∀ p, p ∈ mf.crunchers →
                  (dlookup mf.step_profiles p.2).isSome = true) ∧
              (∀ c, (dlookup m.step_profiles c).isSome = true →
                (dlookup mf.step_profiles c).isSome = true) := by
            intro MX hphase hxj hxjs hxt hPX hmonoX
            have hwfX : ∀ j, j ∈ MX.jobs →
                ((MX.jobStore j).node < MX.tree.nodes.length) := by
              intro j hj
              rw [hxj] at hj
              rw [hxjs, hxt]
              exact hM2wf j hj
            have hinmX : ∀ j, j ∈ MX.jobs → j ∈ rest' ∨
                MX.job_is_done j = false := by
              intro j hj
              rw [hxj] at hj
              have hdx : MX.job_is_done j = M2.job_is_done j :=
                job_is_done_congr _ _ j (congrFun hxjs j) hxt
              by_cases hje : j = jid
              · subst hje
                exact Or.inr (by rw [hdx]; exact hdd2)
              · rw [hM2jobs] at hj
                rcases hinm j hj with hin | hdone2
                · rcases List.mem_cons.mp hin with rfl | hin2
                  · exact absurd rfl hje
                  · exact Or.inl hin2
                · refine Or.inr ?_
                  rw [hdx, hM2done_other j hje hj]
                  exact hdone2
            obtain ⟨c1, c2, c3⟩ := ih MX (total + added) mf n hphase hrN'
              (by rw [hxj, hM2jobs]; exact hjN) hwfX hinmX
            exact ⟨c1, fun hP => c2 (hPX hP),
              fun c hc => c3 c (hmonoX c hc)⟩
          split at h
          · -- cruncher alive and of the selected type
            split at h
            · exact absurd h (by simp)
            · rename_i spc hsp2
              split at h
              · -- step-profile mismatch: retire and replace
                split at h
                · obtain ⟨hfj, hfjs, hft, _⟩ :=
                    conditional_create_frame (M2.retireCruncher cid) jid
                  refine hstep _ h hfj hfjs hft
                    (fun hP => (conditional_create_P (M2.retireCruncher cid)
                      jid (hM2P hP)).1) ?_
                  intro c hc
                  exact conditional_create_mono (M2.retireCruncher cid) jid
                    c (hmono1 c hc)
                · obtain ⟨hfj, hfjs, hft, _⟩ :=
                    conditional_create_frame M2 jid
                  refine hstep _ h hfj hfjs hft
                    (fun hP => (conditional_create_P M2 jid (hM2P hP)).1) ?_
                  intro c hc
                  exact conditional_create_mono M2 jid c (hmono1 c hc)
              · -- same step profile: maybe push the updated profile
                split at h
                · exact hstep _ h rfl rfl rfl hM2P hmono1
                · exact hstep _ h rfl rfl rfl hM2P hmono1
          · -- cruncher dead or of the wrong type: retire and replace
            obtain ⟨hfj, hfjs, hft, _⟩ :=
              conditional_create_frame (M2.retireCruncher cid) jid
            refine hstep _ h hfj hfjs hft
              (fun hP => (conditional_create_P (M2.retireCruncher cid)
                jid (hM2P hP)).1) ?_
            intro c hc
            exact conditional_create_mono (M2.retireCruncher cid) jid c
              (hmono1 c hc)
        · -- job done after the drain: removed, cruncher retired and dropped
          rename_i hdd2n
          have hjsM4 : ∀ (M4 : CrunchingManager),
              sync_phase_two M4 (total + added) rest' =
                Except.ok (mf, n) →
              M4.jobStore = M2.jobStore →
              M4.tree = M2.tree →
              M4.jobs = M2.jobs.erase jid →
              ((∀ p, p ∈ m.crunchers →
                  (dlookup m.step_profiles p.2).isSome = true) →
                ∀ p, p ∈ M4.crunchers →
                  (dlookup M4.step_profiles p.2).isSome = true) →
              (∀ c, (dlookup m.step_profiles c).isSome = true →
                (dlookup M4.step_profiles c).isSome = true) →
              (∀ j, j ∈ mf.jobs → mf.job_is_done j = false) ∧
              ((∀ p, p ∈ m.crunchers →
                  (dlookup m.step_profiles p.2).isSome = true) →
                ∀ p, p ∈ mf.crunchers →
                  (dlookup mf.step_profiles p.2).isSome = true) ∧
              (∀ c, (dlookup m.step_profiles c).isSome = true →
                (dlookup mf.step_profiles c).isSome = true) := by
            intro M4 hphase hxjs hxt hxj hPX hmonoX
            have hN4 : M4.jobs.Nodup := by
              rw [hxj, hM2jobs]
              exact hjN.erase jid
            have hwf4 : ∀ j, j ∈ M4.jobs →
                ((M4.jobStore j).node < M4.tree.nodes.length) := by
              intro j hj
              rw [hxj] at hj
              rw [hxjs, hxt]
              exact hM2wf j (List.mem_of_mem_erase hj)
            have hinm4 : ∀ j, j ∈ M4.jobs → j ∈ rest' ∨
                M4.job_is_done j = false := by
              intro j hj
              rw [hxj, hM2jobs] at hj
              have hj4 := (hjN.mem_erase_iff).mp hj
              have hdx : M4.job_is_done j = M2.job_is_done j :=
                job_is_done_congr _ _ j (congrFun hxjs j) hxt
              rcases hinm j hj4.2 with hin | hdone2
              · rcases List.mem_cons.mp hin with rfl | hin2
                · exact absurd rfl hj4.1
                · exact Or.inl hin2
              · refine Or.inr ?_
                rw [hdx, hM2done_other j hj4.1 hj4.2]
                exact hdone2
            obtain ⟨c1, c2, c3⟩ := ih M4 (total + added) mf n hphase hrN'
              hN4 hwf4 hinm4
            exact ⟨c1, fun hP => c2 (hPX hP),
              fun c hc => c3 c (hmonoX c hc)⟩
          have hPd : (∀ p, p ∈ m.crunchers →
              (dlookup m.step_profiles p.2).isSome = true) →
              ∀ p, p ∈ derase M2.crunchers jid →
              (dlookup M2.step_profiles p.2).isSome = true :=
            fun hP p hp => hM2P hP p (mem_derase _ _ _ hp)
          split at h
          · -- the cruncher was still alive: retired before being dropped
            exact hjsM4 _ h rfl rfl rfl hPd hmono1
          · exact hjsM4 _ h rfl rfl rfl hPd hmono1

/-- The manager a sync call results in (the input manager when it
errored). -/
def syncResultOf (m : CrunchingManager) : CrunchingManager :=
  match sync_crunchers m with
  | Except.ok r => r.1
  | Except.error _ => m

/-- C5: on a well-formed manager state (duplicate-free job list, every
job\'s node present in the tree), a sync call that completes leaves no done
job in the job list. -/
theorem C5_no_done_job_left (m : CrunchingManager)
    (hN : m.jobs.Nodup)
    (hwf : ∀ j, j ∈ m.jobs → (m.jobStore j).node < m.tree.nodes.length) :
    match sync_crunchers m with
    | Except.ok (mf, _) => doneJobsIn mf = []
    | Except.error _ => True := by
  split
  · rename_i r mf n hs
    unfold sync_crunchers at hs
    split at hs
    · exact absurd hs (by simp)
    · rename_i m₂ total₂ hp1
      obtain ⟨hjl, hjs, ⟨ns, hns⟩, hmono, hsub⟩ :=
        sync_phase_one_master m.crunchers m 0 m₂ total₂ hp1
      have hwf2 : ∀ j, j ∈ m₂.jobs →
          (m₂.jobStore j).node < m₂.tree.nodes.length := by
        intro j hj
        rw [hjl] at hj
        rw [hjs j hj, hns]
        calc (m.jobStore j).node < m.tree.nodes.length := hwf j hj
        _ ≤ (m.tree.nodes ++ ns).length := by simp
      obtain ⟨c1, _, _⟩ :=
        sync_phase_two_master m₂.jobs m₂ total₂ mf n hs
          (by rw [hjl]; exact hN) (by rw [hjl]; exact hN) hwf2
          (fun j hj => Or.inl hj)
      show mf.jobs.filter mf.job_is_done = []
      rw [List.filter_eq_nil_iff]
      intro j hj
      rw [c1 j hj]
      simp
  · trivial

/-- A manager whose single job is already done (its `resulted_in_end` flag
is set) while its live cruncher has an empty queue. -/
def c3m : CrunchingManager :=
  { tree := wtree, jobs := [0],
    jobStore := fun _ => { wjobA with resulted_in_end := true },
    cruncherStore := fun _ =>
      { ctype := 7, alive := true, work_queue := [],
        crunching_profile := wcpA },
    crunchers := [(0, 0)], step_profiles := [(0, wsp0)],
    crunching_profiles_change_tracker := [(0, wcpA)],
    cruncher_type := 7, next_cruncher := 1, events := [] }

theorem C5_no_done_job_left_witness :
    match sync_crunchers c3m with
    | Except.ok (mf, _) => doneJobsIn mf = []
    | Except.error _ => True :=
  C5_no_done_job_left c3m (by decide) (by decide)

/-- Whether a sync call completes without raising. -/
def syncOk (m : CrunchingManager) : Bool :=
  match sync_crunchers m with
  | Except.ok _ => true
  | Except.error _ => false

/-- C3 counterexample: syncing `c3m` completes, retires the cruncher and
removes it from `crunchers`, yet its `step_profiles` entry survives — a key
of `step_profiles` that is no value of `crunchers`. -/
theorem C3_counterexample :
    syncOk c3m = true ∧
    (syncResultOf c3m).crunchers = [] ∧
    (syncResultOf c3m).step_profiles = [(0, wsp0)] ∧
    ((syncResultOf c3m).cruncherStore 0).alive = false ∧
    (syncResultOf c3m).events = [Event.retired 0] := by decide

/-- C3 amended: `sync_crunchers` never removes a `step_profiles` entry (a
retired cruncher\'s entry survives, as the counterexample shows); what is
preserved is the converse inclusion: on a well-formed state in which every
cruncher of the `crunchers` map has a recorded step profile, this still
holds after the sync call, and every previously recorded entry is still
present. -/
theorem C3_amended_profiles_never_dropped (m : CrunchingManager)
    (mf : CrunchingManager) (n : Nat)
    (h : sync_crunchers m = Except.ok (mf, n))
    (hN : m.jobs.Nodup)
    (hwf : ∀ j, j ∈ m.jobs → (m.jobStore j).node < m.tree.nodes.length)
    (hinv : ∀ p, p ∈ m.crunchers →
      (dlookup m.step_profiles p.2).isSome = true) :
    (∀ p, p ∈ mf.crunchers →
      (dlookup mf.step_profiles p.2).isSome = true) ∧
    (∀ c, (dlookup m.step_profiles c).isSome = true →
      (dlookup mf.step_profiles c).isSome = true) := by
  unfold sync_crunchers at h
  split at h
  · exact absurd h (by simp)
  · rename_i m₂ total₂ hp1
    obtain ⟨hjl, hjs, ⟨ns, hns⟩, hmono, hsub⟩ :=
      sync_phase_one_master m.crunchers m 0 m₂ total₂ hp1
    have hwf2 : ∀ j, j ∈ m₂.jobs →
        (m₂.jobStore j).node < m₂.tree.nodes.length := by
      intro j hj
      rw [hjl] at hj
      rw [hjs j hj, hns]
      calc (m.jobStore j).node < m.tree.nodes.length := hwf j hj
      _ ≤ (m.tree.nodes ++ ns).length := by simp
    obtain ⟨_, c2, c3⟩ :=
      sync_phase_two_master m₂.jobs m₂ total₂ mf n h
        (by rw [hjl]; exact hN) (by rw [hjl]; exact hN) hwf2
        (fun j hj => Or.inl hj)
    constructor
    · refine c2 ?_
      intro p hp
      exact hmono p.2 (hinv p (hsub p hp))
    · exact fun c hc => c3 c (hmono c hc)

theorem C3_amended_profiles_never_dropped_witness :
    (∀ p, p ∈ (syncResultOf c3m).crunchers →
      (dlookup (syncResultOf c3m).step_profiles p.2).isSome = true) ∧
    (∀ c, (dlookup c3m.step_profiles c).isSome = true →
      (dlookup (syncResultOf c3m).step_profiles c).isSome = true) :=
  C3_amended_profiles_never_dropped c3m (syncResultOf c3m) 0 rfl
    (by decide) (by decide) (by decide)

/-- A crunching profile whose step profile (`wsp1`) differs from the one
recorded for the running cruncher (`wsp0`). -/
def c2cp : CrunchingProfile := { clock_target := some 10, step_profile := wsp1 }

/-- A manager whose single job holds step profile `wsp1` while its live
cruncher of the selected type is recorded with `wsp0` — and whose node is
still in editing. -/
def c2m : CrunchingManager :=
  { tree := wtreeEditing, jobs := [0],
    jobStore := fun _ =>
      { node := 0, crunching_profile := c2cp, resulted_in_end := false },
    cruncherStore := fun _ =>
      { ctype := 7, alive := true, work_queue := [],
        crunching_profile := wcpA },
    crunchers := [(0, 0)], step_profiles := [(0, wsp0)],
    crunching_profiles_change_tracker := [(0, wcpA)],
    cruncher_type := 7, next_cruncher := 1, events := [] }

/-- C2 counterexample: in `c2m` every condition of the claim holds — the
job\'s cruncher is alive and of the current type, the job is not done after
draining, and the step profiles differ — yet the sync call, which
completes, performs the retire but creates no replacement cruncher (its
node is in editing): no `created` event, `next_cruncher` unchanged, and
`crunchers` still maps the job to the retired cruncher. -/
theorem C2_counterexample :
    (c2m.cruncherStore 0).alive = true ∧
    (c2m.cruncherStore 0).ctype = c2m.cruncher_type ∧
    dlookup c2m.step_profiles 0 = some wsp0 ∧
    StepProfile.eq (c2m.jobStore 0).crunching_profile.step_profile wsp0 =
      false ∧
    syncOk c2m = true ∧
    (syncResultOf c2m).job_is_done 0 = false ∧
    (syncResultOf c2m).events = [Event.retired 0] ∧
    (syncResultOf c2m).next_cruncher = 1 ∧
    (syncResultOf c2m).crunchers = [(0, 0)] ∧
    ((syncResultOf c2m).cruncherStore 0).alive = false := by decide

/-- As `c2m` but with the root node not in editing. -/
def c2wm : CrunchingManager := { c2m with tree := wtree }

/-- The manager after draining `c2wm`\'s (empty) queue. -/
def c2wm1 : CrunchingManager :=
  match add_work_to_tree c2wm 0 0 false with
  | Except.ok r => r.1
  | Except.error _ => c2wm

theorem C2_amended_witness :
    match sync_crunchers c2wm with
    | Except.ok (mf, n) =>
      n = 0 ∧
      mf.events = c2wm.events ++
        [Event.retired 0, Event.created c2wm.next_cruncher 0] ∧
      dlookup mf.step_profiles c2wm.next_cruncher =
        some (c2wm.jobStore 0).crunching_profile.step_profile ∧
      dlookup mf.crunchers 0 = some c2wm.next_cruncher ∧
      (mf.cruncherStore c2wm.next_cruncher).alive = true ∧
      (mf.cruncherStore c2wm.next_cruncher).ctype = c2wm.cruncher_type ∧
      (mf.cruncherStore 0).alive = false
    | Except.error _ => False :=
  C2_amended c2wm 0 0 wsp0 c2wm1 0 0 rfl rfl (by decide) rfl rfl rfl rfl
    rfl (by decide) rfl (by decide) (by decide) (by decide)

end Garlicsim
